import Mathlib

/-!
Shallow embedding of the faceair/drain online log-template miner (drain.go)
and proofs about its specification.

Modelling conventions:
* Go `float64` similarity values are modelled as exact fractions (`SimScore`)
  with IEEE NaN comparison behaviour; all comparisons exercised by the claims
  are far from the binary-rounding gap of the default threshold 0.4, so the
  comparisons agree with float64.
* Go panics (length-mismatch panic, nil-pointer dereference, index out of
  range) are modelled by the `Except DrainErr` monad.
* The `simplelru` LRU cache is modelled as a list of key/value entries kept in
  recency order: least recently used first, most recently used last, exactly
  the order of `simplelru`'s `Keys()`.
* Go maps (`keyToChildNode`) are modelled as association lists.  The source
  never iterates over these maps (only lookup, insert, and `len`), so the
  entry order is unobservable and the association list is a faithful model.
* In-place mutation through `*LogCluster` pointers is modelled by explicit
  value replacement in the cache (`LogClusterCache.update`).
-/

/-- Go runtime failures of drain.go: the two `panic("seq1 seq2 be of same length")`
sites, a nil `*Node` dereference, and `clusterIDs[0]` on an empty slice. -/
inductive DrainErr where
  | lenMismatch
  | nilNode
  | emptyLeaf
deriving Repr, DecidableEq

/-- A Go `float64` value that is the quotient of an integer by a natural
number, kept as an exact fraction.  Every float in drain.go is such a
quotient: the similarity values `simTokens / len(seq1)`, the initial `-1.0`,
and the threshold `SimTh`.  A zero denominator arises only as `0/0`, Go's NaN
(`getSeqDistance` on two empty sequences); the comparison functions below give
NaN comparisons their IEEE meaning: always false.  For nonzero denominators
the comparisons are exact rational comparisons, which agree with float64 for
every fraction whose denominator is far below `2^26` (rounding cannot cross
or merge such fractions), in particular for all token counts in practice. -/
structure SimScore where
  num : Int
  den : Nat
deriving Repr, DecidableEq

/-- Float64 `>` on quotients; false when either side is NaN. -/
def SimScore.gt (x y : SimScore) : Bool :=
  if x.den = 0 ∨ y.den = 0 then false
  else decide (x.num * (y.den : Int) > y.num * (x.den : Int))

/-- Float64 `==` on quotients; false when either side is NaN. -/
def SimScore.feq (x y : SimScore) : Bool :=
  if x.den = 0 ∨ y.den = 0 then false
  else decide (x.num * (y.den : Int) = y.num * (x.den : Int))

/-- Float64 `>=` on quotients; false when either side is NaN. -/
def SimScore.ge (x y : SimScore) : Bool :=
  if x.den = 0 ∨ y.den = 0 then false
  else decide (x.num * (y.den : Int) ≥ y.num * (x.den : Int))

/-- drain.go `Config`. -/
structure Config where
  maxNodeDepth : Nat
  LogClusterDepth : Nat
  SimTh : SimScore
  MaxChildren : Nat
  ExtraDelimiters : List String
  MaxClusters : Nat
  ParamString : String
deriving Repr, DecidableEq

/-- drain.go `LogCluster`. -/
structure LogCluster where
  logTemplateTokens : List String
  id : Nat
  size : Nat
deriving Repr, DecidableEq

/-- drain.go `DefaultConfig`; unset Go fields carry their zero values. -/
def DefaultConfig : Config :=
  { maxNodeDepth := 0
    LogClusterDepth := 4
    SimTh := { num := 2, den := 5 }
    MaxChildren := 100
    ExtraDelimiters := []
    MaxClusters := 0
    ParamString := "<*>" }

/-- The character `'0' + d`. -/
def digitChar (d : Nat) : Char := Char.ofNat (48 + d)

/-- Fuel-driven digit accumulation for `itoa`; the fuel is always sufficient
when called through `itoa`. -/
def itoaAux : Nat → Nat → List Char → List Char
  | 0, _, acc => acc
  | fuel + 1, n, acc =>
    if n < 10 then digitChar (n % 10) :: acc
    else itoaAux fuel (n / 10) (digitChar (n % 10) :: acc)

/-- Model of Go `strconv.Itoa` on natural numbers (token counts are
nonnegative): the usual decimal rendering. -/
def itoa (n : Nat) : String := String.mk (itoaAux (n + 1) n [])

/-- Model of Go `unicode.IsSpace`: the Latin-1 white space characters plus the
White_Space code points outside Latin-1. -/
def goIsSpace (c : Char) : Bool :=
  decide (c.toNat = 32 ∨ c.toNat = 9 ∨ c.toNat = 10 ∨ c.toNat = 11 ∨ c.toNat = 12 ∨
    c.toNat = 13 ∨ c.toNat = 0x85 ∨ c.toNat = 0xA0 ∨ c.toNat = 0x1680 ∨
    (0x2000 ≤ c.toNat ∧ c.toNat ≤ 0x200A) ∨ c.toNat = 0x2028 ∨ c.toNat = 0x2029 ∨
    c.toNat = 0x202F ∨ c.toNat = 0x205F ∨ c.toNat = 0x3000)

/-- Model of Go `strings.TrimSpace`: drop white space from both ends. -/
def trimSpace (s : List Char) : List Char :=
  ((s.dropWhile goIsSpace).reverse.dropWhile goIsSpace).reverse

/-- Model of Go `strings.Split(s, " ")`: cut at every single space, keeping
empty fields.  The result is never the empty list. -/
def splitSpace : List Char → List (List Char)
  | [] => [[]]
  | c :: rest =>
    match splitSpace rest with
    | [] => [[]]
    | t :: ts => if c = ' ' then [] :: t :: ts else (c :: t) :: ts

/-- Fuel-driven body of `goReplaceAll`; the fuel is the length of the text, and
each step consumes at least one character of it. -/
def replaceAllAux (pat rep : List Char) : Nat → List Char → List Char
  | 0, s => s
  | _ + 1, [] => []
  | fuel + 1, c :: rest =>
    if pat.isPrefixOf (c :: rest) then
      rep ++ replaceAllAux pat rep fuel ((c :: rest).drop pat.length)
    else c :: replaceAllAux pat rep fuel rest

/-- Model of Go `strings.Replace(s, pat, rep, -1)`: replace every
non-overlapping occurrence of `pat`, scanning left to right; an empty pattern
inserts `rep` before every character and at the end. -/
def goReplaceAll (s pat rep : List Char) : List Char :=
  if pat = [] then rep ++ s.foldr (fun c acc => c :: (rep ++ acc)) []
  else replaceAllAux pat rep s.length s

/-- drain.go `getContentAsTokens`: trim surrounding white space, replace each
extra delimiter by a space, split on single spaces. -/
def getContentAsTokens (config : Config) (content : String) : List String :=
  let trimmed := trimSpace content.data
  let replaced := config.ExtraDelimiters.foldl
    (fun s extraDelimiter => goReplaceAll s extraDelimiter.data [' ']) trimmed
  (splitSpace replaced).map String.mk

/-- The Unicode category-N (Number) code point ranges over all planes,
Unicode version 14.0.0, as consulted by Go `unicode.IsNumber`: the
decimal-digit ranges (category Nd) together with the letterlike-numeral
ranges (Nl, for example Roman numerals) and the other-number ranges (No, for
example vulgar fractions, superscripts and the Aegean numbers of the
supplementary planes). -/
def unicodeNumberRanges : List (Nat × Nat) :=
  [(0x30, 0x39), (0xB2, 0xB3), (0xB9, 0xB9),
   (0xBC, 0xBE), (0x660, 0x669), (0x6F0, 0x6F9),
   (0x7C0, 0x7C9), (0x966, 0x96F), (0x9E6, 0x9EF),
   (0x9F4, 0x9F9), (0xA66, 0xA6F), (0xAE6, 0xAEF),
   (0xB66, 0xB6F), (0xB72, 0xB77), (0xBE6, 0xBF2),
   (0xC66, 0xC6F), (0xC78, 0xC7E), (0xCE6, 0xCEF),
   (0xD58, 0xD5E), (0xD66, 0xD78), (0xDE6, 0xDEF),
   (0xE50, 0xE59), (0xED0, 0xED9), (0xF20, 0xF33),
   (0x1040, 0x1049), (0x1090, 0x1099), (0x1369, 0x137C),
   (0x16EE, 0x16F0), (0x17E0, 0x17E9), (0x17F0, 0x17F9),
   (0x1810, 0x1819), (0x1946, 0x194F), (0x19D0, 0x19DA),
   (0x1A80, 0x1A89), (0x1A90, 0x1A99), (0x1B50, 0x1B59),
   (0x1BB0, 0x1BB9), (0x1C40, 0x1C49), (0x1C50, 0x1C59),
   (0x2070, 0x2070), (0x2074, 0x2079), (0x2080, 0x2089),
   (0x2150, 0x2182), (0x2185, 0x2189), (0x2460, 0x249B),
   (0x24EA, 0x24FF), (0x2776, 0x2793), (0x2CFD, 0x2CFD),
   (0x3007, 0x3007), (0x3021, 0x3029), (0x3038, 0x303A),
   (0x3192, 0x3195), (0x3220, 0x3229), (0x3248, 0x324F),
   (0x3251, 0x325F), (0x3280, 0x3289), (0x32B1, 0x32BF),
   (0xA620, 0xA629), (0xA6E6, 0xA6EF), (0xA830, 0xA835),
   (0xA8D0, 0xA8D9), (0xA900, 0xA909), (0xA9D0, 0xA9D9),
   (0xA9F0, 0xA9F9), (0xAA50, 0xAA59), (0xABF0, 0xABF9),
   (0xFF10, 0xFF19), (0x10107, 0x10133), (0x10140, 0x10178),
   (0x1018A, 0x1018B), (0x102E1, 0x102FB), (0x10320, 0x10323),
   (0x10341, 0x10341), (0x1034A, 0x1034A), (0x103D1, 0x103D5),
   (0x104A0, 0x104A9), (0x10858, 0x1085F), (0x10879, 0x1087F),
   (0x108A7, 0x108AF), (0x108FB, 0x108FF), (0x10916, 0x1091B),
   (0x109BC, 0x109BD), (0x109C0, 0x109CF), (0x109D2, 0x109FF),
   (0x10A40, 0x10A48), (0x10A7D, 0x10A7E), (0x10A9D, 0x10A9F),
   (0x10AEB, 0x10AEF), (0x10B58, 0x10B5F), (0x10B78, 0x10B7F),
   (0x10BA9, 0x10BAF), (0x10CFA, 0x10CFF), (0x10D30, 0x10D39),
   (0x10E60, 0x10E7E), (0x10F1D, 0x10F26), (0x10F51, 0x10F54),
   (0x10FC5, 0x10FCB), (0x11052, 0x1106F), (0x110F0, 0x110F9),
   (0x11136, 0x1113F), (0x111D0, 0x111D9), (0x111E1, 0x111F4),
   (0x112F0, 0x112F9), (0x11450, 0x11459), (0x114D0, 0x114D9),
   (0x11650, 0x11659), (0x116C0, 0x116C9), (0x11730, 0x1173B),
   (0x118E0, 0x118F2), (0x11950, 0x11959), (0x11C50, 0x11C6C),
   (0x11D50, 0x11D59), (0x11DA0, 0x11DA9), (0x11FC0, 0x11FD4),
   (0x12400, 0x1246E), (0x16A60, 0x16A69), (0x16AC0, 0x16AC9),
   (0x16B50, 0x16B59), (0x16B5B, 0x16B61), (0x16E80, 0x16E96),
   (0x1D2E0, 0x1D2F3), (0x1D360, 0x1D378), (0x1D7CE, 0x1D7FF),
   (0x1E140, 0x1E149), (0x1E2F0, 0x1E2F9), (0x1E8C7, 0x1E8CF),
   (0x1E950, 0x1E959), (0x1EC71, 0x1ECAB), (0x1ECAD, 0x1ECAF),
   (0x1ECB1, 0x1ECB4), (0x1ED01, 0x1ED2D), (0x1ED2F, 0x1ED3D),
   (0x1F100, 0x1F10C), (0x1FBF0, 0x1FBF9)]

/-- Model of Go `unicode.IsNumber`: membership in Unicode category N. -/
def unicodeIsNumber (c : Char) : Bool :=
  unicodeNumberRanges.any (fun r => decide (r.1 ≤ c.toNat) && decide (c.toNat ≤ r.2))

/-- drain.go `hasNumbers`: some code point of the token satisfies
`unicode.IsNumber`. -/
def hasNumbers (s : String) : Bool := s.data.any unicodeIsNumber

/-- The Unicode decimal-digit code point ranges (category Nd) over all
planes, Unicode version 14.0.0, as consulted by Go `unicode.IsDigit`. -/
def decimalDigitRanges : List (Nat × Nat) :=
  [(0x30, 0x39), (0x660, 0x669), (0x6F0, 0x6F9),
   (0x7C0, 0x7C9), (0x966, 0x96F), (0x9E6, 0x9EF),
   (0xA66, 0xA6F), (0xAE6, 0xAEF), (0xB66, 0xB6F),
   (0xBE6, 0xBEF), (0xC66, 0xC6F), (0xCE6, 0xCEF),
   (0xD66, 0xD6F), (0xDE6, 0xDEF), (0xE50, 0xE59),
   (0xED0, 0xED9), (0xF20, 0xF29), (0x1040, 0x1049),
   (0x1090, 0x1099), (0x17E0, 0x17E9), (0x1810, 0x1819),
   (0x1946, 0x194F), (0x19D0, 0x19D9), (0x1A80, 0x1A89),
   (0x1A90, 0x1A99), (0x1B50, 0x1B59), (0x1BB0, 0x1BB9),
   (0x1C40, 0x1C49), (0x1C50, 0x1C59), (0xA620, 0xA629),
   (0xA8D0, 0xA8D9), (0xA900, 0xA909), (0xA9D0, 0xA9D9),
   (0xA9F0, 0xA9F9), (0xAA50, 0xAA59), (0xABF0, 0xABF9),
   (0xFF10, 0xFF19), (0x104A0, 0x104A9), (0x10D30, 0x10D39),
   (0x11066, 0x1106F), (0x110F0, 0x110F9), (0x11136, 0x1113F),
   (0x111D0, 0x111D9), (0x112F0, 0x112F9), (0x11450, 0x11459),
   (0x114D0, 0x114D9), (0x11650, 0x11659), (0x116C0, 0x116C9),
   (0x11730, 0x11739), (0x118E0, 0x118E9), (0x11950, 0x11959),
   (0x11C50, 0x11C59), (0x11D50, 0x11D59), (0x11DA0, 0x11DA9),
   (0x16A60, 0x16A69), (0x16AC0, 0x16AC9), (0x16B50, 0x16B59),
   (0x1D7CE, 0x1D7FF), (0x1E140, 0x1E149), (0x1E2F0, 0x1E2F9),
   (0x1E950, 0x1E959), (0x1FBF0, 0x1FBF9)]

/-- A code point classified as a decimal digit (Unicode category Nd). -/
def isDecimalDigit (c : Char) : Bool :=
  decimalDigitRanges.any (fun r => decide (r.1 ≤ c.toNat) && decide (c.toNat ≤ r.2))

/-- The token classifier as the specification words it: true iff at least one
code point of the token is classified as a decimal digit.  Stated from the
spec for comparison against the source's `hasNumbers`. -/
def specHasDigit (s : String) : Bool := s.data.any isDecimalDigit

/-- The `simplelru` LRU cache of `*LogCluster` values wrapped by drain.go's
`LogClusterCache`.  `entries` is the recency list, least recently used first,
most recently used last. -/
structure LogClusterCache where
  maxSize : Nat
  entries : List (Nat × LogCluster)
deriving Repr, DecidableEq

/-- drain.go `createLogClusterCache`: capacity 0 means unbounded, realised in
Go as `math.MaxInt`. -/
def createLogClusterCache (maxSize : Nat) : LogClusterCache :=
  { maxSize := if maxSize = 0 then 2 ^ 63 - 1 else maxSize, entries := [] }

/-- Pure lookup observer (no recency change); used to state properties. -/
def LogClusterCache.find? (c : LogClusterCache) (key : Nat) : Option LogCluster :=
  (c.entries.find? (fun e => decide (e.1 = key))).map (fun e => e.2)

/-- drain.go `LogClusterCache.Get`, backed by `simplelru.LRU.Get`: a hit moves
the entry to the most-recently-used end; a miss returns nil and leaves the
cache unchanged. -/
def LogClusterCache.Get (c : LogClusterCache) (key : Nat) :
    Option LogCluster × LogClusterCache :=
  match c.entries.find? (fun e => decide (e.1 = key)) with
  | none => (none, c)
  | some e =>
    (some e.2, { c with entries := c.entries.filter (fun x => decide (x.1 ≠ key)) ++ [e] })

/-- drain.go `LogClusterCache.Set`, backed by `simplelru.LRU.Add`: an existing
key is updated and moved to the most-recently-used end; a new key is appended
and, when the capacity is exceeded, the least-recently-used entry is evicted. -/
def LogClusterCache.Set (c : LogClusterCache) (key : Nat) (cluster : LogCluster) :
    LogClusterCache :=
  if c.entries.any (fun e => decide (e.1 = key)) then
    { c with entries := c.entries.filter (fun x => decide (x.1 ≠ key)) ++ [(key, cluster)] }
  else if c.maxSize < (c.entries ++ [(key, cluster)]).length then
    { c with entries := (c.entries ++ [(key, cluster)]).drop 1 }
  else
    { c with entries := c.entries ++ [(key, cluster)] }

/-- drain.go `LogClusterCache.Values`: `Keys()` in recency order (oldest
first), each entry read with the non-touching `Peek`. -/
def LogClusterCache.Values (c : LogClusterCache) : List LogCluster :=
  c.entries.map (fun e => e.2)

/-- Models Go in-place mutation through the `*LogCluster` pointer stored in
the cache: the entry's value changes, its recency position does not. -/
def LogClusterCache.update (c : LogClusterCache) (key : Nat) (cluster : LogCluster) :
    LogClusterCache :=
  { c with entries := c.entries.map (fun e => if e.1 = key then (key, cluster) else e) }

/-- drain.go `Node`: a map from edge key to child plus the cluster ids held at
this node. -/
inductive Node where
  | mk (keyToChildNode : List (String × Node)) (clusterIDs : List Nat)

/-- The child map of a node. -/
def Node.keyToChildNode : Node → List (String × Node)
  | .mk m _ => m

/-- The cluster ids stored at a node. -/
def Node.clusterIDs : Node → List Nat
  | .mk _ ids => ids

/-- Go map read `n.keyToChildNode[key]` (with presence flag). -/
def Node.lookupChild (n : Node) (key : String) : Option Node :=
  (n.keyToChildNode.find? (fun e => decide (e.1 = key))).map (fun e => e.2)

/-- Go map write `n.keyToChildNode[key] = child`: replace in place when the
key exists, append otherwise. -/
def Node.setChild (n : Node) (key : String) (child : Node) : Node :=
  if n.keyToChildNode.any (fun e => decide (e.1 = key)) then
    .mk (n.keyToChildNode.map (fun e => if e.1 = key then (key, child) else e)) n.clusterIDs
  else
    .mk (n.keyToChildNode ++ [(key, child)]) n.clusterIDs

/-- Go slice write `n.clusterIDs = ids`. -/
def Node.setClusterIDs : Node → List Nat → Node
  | .mk m _, ids => .mk m ids

/-- drain.go `createNode`. -/
def createNode : Node := .mk [] []

/-- The element counting loop of drain.go `getSeqDistance`, over two
equal-length sequences: wildcard positions of `seq1` count into `paramCount`,
equal non-wildcard positions into `simTokens`. -/
def seqDistCounts (paramString : String) : List String → List String → Nat × Nat
  | token1 :: r1, token2 :: r2 =>
    let sp := seqDistCounts paramString r1 r2
    if token1 = paramString then (sp.1, sp.2 + 1)
    else if token1 = token2 then (sp.1 + 1, sp.2)
    else sp
  | _, _ => (0, 0)

/-- drain.go `getSeqDistance`: panics on unequal lengths, otherwise returns
the similarity `(simTokens + paramCount if includeParams) / len(seq1)` and the
wildcard count of `seq1`. -/
def getSeqDistance (config : Config) (seq1 seq2 : List String) (includeParams : Bool) :
    Except DrainErr (SimScore × Nat) :=
  if seq1.length ≠ seq2.length then .error .lenMismatch
  else
    let sp := seqDistCounts config.ParamString seq1 seq2
    let simTokens := if includeParams then sp.1 + sp.2 else sp.1
    .ok ({ num := (simTokens : Int), den := seq1.length }, sp.2)

/-- drain.go `createTemplate`: panics on unequal lengths, otherwise copies
`seq2` and overwrites every position where `seq1` differs with the wildcard. -/
def createTemplate (config : Config) (seq1 seq2 : List String) :
    Except DrainErr (List String) :=
  if seq1.length ≠ seq2.length then .error .lenMismatch
  else
    .ok (List.zipWith
      (fun token1 token2 => if token1 ≠ token2 then config.ParamString else token2)
      seq1 seq2)

/-- The candidate loop of drain.go `fastMatch`, threading the cache because
each candidate is read with the recency-touching `Get`. -/
def fastMatchAux (config : Config) (tokens : List String) (includeParams : Bool) :
    List Nat → LogClusterCache → SimScore → Int → Option LogCluster →
    Except DrainErr (Option LogCluster × SimScore × LogClusterCache)
  | [], store, maxSim, _, maxCluster => .ok (maxCluster, maxSim, store)
  | clusterID :: rest, store, maxSim, maxParamCount, maxCluster =>
    match store.Get clusterID with
    | (none, store') =>
      fastMatchAux config tokens includeParams rest store' maxSim maxParamCount maxCluster
    | (some cluster, store') =>
      match getSeqDistance config cluster.logTemplateTokens tokens includeParams with
      | .error e => .error e
      | .ok (curSim, paramCount) =>
        if curSim.gt maxSim ∨ (curSim.feq maxSim ∧ (paramCount : Int) > maxParamCount) then
          fastMatchAux config tokens includeParams rest store' curSim paramCount (some cluster)
        else
          fastMatchAux config tokens includeParams rest store' maxSim maxParamCount maxCluster

/-- drain.go `fastMatch`: best candidate by highest similarity, ties broken by
higher wildcard count, further ties by first encountered; below the threshold
the result is none. -/
def fastMatch (config : Config) (store : LogClusterCache) (clusterIDs : List Nat)
    (tokens : List String) (simTh : SimScore) (includeParams : Bool) :
    Except DrainErr (Option LogCluster × LogClusterCache) :=
  match fastMatchAux config tokens includeParams clusterIDs store
      { num := -1, den := 1 } (-1) none with
  | .error e => .error e
  | .ok (maxCluster, maxSim, store') =>
    .ok (if maxSim.ge simTh then maxCluster else none, store')

/-- The descent loop of drain.go `treeSearch`: at each level follow the
literal child, else the wildcard child, else fail; stop at the maximum node
depth or at the last token. -/
def treeSearchLoop (config : Config) (tokenCount : Nat) :
    List String → Nat → Node → Option Node
  | [], _, curNode => some curNode
  | token :: rest, curNodeDepth, curNode =>
    if curNodeDepth ≥ config.maxNodeDepth then some curNode
    else if curNodeDepth = tokenCount then some curNode
    else
      match curNode.lookupChild token with
      | some child => treeSearchLoop config tokenCount rest (curNodeDepth + 1) child
      | none =>
        match curNode.lookupChild config.ParamString with
        | some child => treeSearchLoop config tokenCount rest (curNodeDepth + 1) child
        | none => none

/-- drain.go `treeSearch`: look up the token-count bucket, handle the empty
line case, descend, and delegate to `fastMatch` at the reached leaf. -/
def treeSearch (config : Config) (store : LogClusterCache) (rootNode : Node)
    (tokens : List String) (simTh : SimScore) (includeParams : Bool) :
    Except DrainErr (Option LogCluster × LogClusterCache) :=
  let tokenCount := tokens.length
  match rootNode.lookupChild (itoa tokenCount) with
  | none => .ok (none, store)
  | some curNode =>
    if tokenCount = 0 then
      match curNode.clusterIDs with
      | [] => .error .emptyLeaf
      | clusterID :: _ =>
        let rs := LogClusterCache.Get store clusterID
        .ok (rs.1, rs.2)
    else
      match treeSearchLoop config tokenCount tokens 1 curNode with
      | none => .ok (none, store)
      | some leaf => fastMatch config store leaf.clusterIDs tokens simTh includeParams

/-- The stale-id cleanup of drain.go `addSeqToPrefixTree`'s leaf case: keep
only ids the cache still holds, checking each with the recency-touching
`Get`. -/
def pruneClusterIDs : LogClusterCache → List Nat → List Nat × LogClusterCache
  | store, [] => ([], store)
  | store, clusterID :: rest =>
    match LogClusterCache.Get store clusterID with
    | (some _, store') =>
      (clusterID :: (pruneClusterIDs store' rest).1, (pruneClusterIDs store' rest).2)
    | (none, store') => pruneClusterIDs store' rest

/-- The branching of the insertion loop of drain.go `addSeqToPrefixTree`: the
child key descended into and the node it holds.  It mirrors the source:
existing literal child; fresh digit-free token (split on the wildcard child's
presence and the `MaxChildren` arithmetic); digit-bearing token (always the
wildcard child).  `none` is Go's descent into a missing wildcard child (a nil
`*Node`). -/
def addSeqStep (config : Config) (curNode : Node) (token : String) :
    Option (String × Node) :=
  match curNode.lookupChild token with
  | some child => some (token, child)
  | none =>
    if ¬ hasNumbers token then
      match curNode.lookupChild config.ParamString with
      | some wildcard =>
        if curNode.keyToChildNode.length < config.MaxChildren then
          some (token, createNode)
        else some (config.ParamString, wildcard)
      | none =>
        if curNode.keyToChildNode.length + 1 < config.MaxChildren then
          some (token, createNode)
        else if curNode.keyToChildNode.length + 1 = config.MaxChildren then
          some (config.ParamString, createNode)
        else none
    else
      match curNode.lookupChild config.ParamString with
      | none => some (config.ParamString, createNode)
      | some wildcard => some (config.ParamString, wildcard)

/-- The outcome of Go's descent into a missing wildcard child (`curNode`
becomes nil): if the loop has further iterations the next one dereferences the
nil node and panics, otherwise the loop exits with the tree unchanged from
this node down. -/
def nilDescend (rest : List String) (curNode : Node) (store : LogClusterCache) :
    Except DrainErr (Node × LogClusterCache) :=
  match rest with
  | [] => .ok (curNode, store)
  | _ :: _ => .error .nilNode

/-- The insertion loop of drain.go `addSeqToPrefixTree`, rebuilding the
mutated path.  At the leaf condition the stale ids are pruned and the new
cluster id appended. -/
def addSeqLoop (config : Config) (clusterID : Nat) (tokenCount : Nat) :
    List String → Nat → Node → LogClusterCache → Except DrainErr (Node × LogClusterCache)
  | [], _, curNode, store => .ok (curNode, store)
  | token :: rest, currentDepth, curNode, store =>
    if currentDepth ≥ config.maxNodeDepth ∨ currentDepth ≥ tokenCount then
      .ok (curNode.setClusterIDs
          ((pruneClusterIDs store curNode.clusterIDs).1 ++ [clusterID]),
        (pruneClusterIDs store curNode.clusterIDs).2)
    else
      match addSeqStep config curNode token with
      | none => nilDescend rest curNode store
      | some kc =>
        match addSeqLoop config clusterID tokenCount rest (currentDepth + 1) kc.2 store with
        | .error e => .error e
        | .ok (child', store') => .ok (curNode.setChild kc.1 child', store')

/-- drain.go `addSeqToPrefixTree`: get or create the token-count bucket,
append directly for empty templates, otherwise run the insertion loop and
write the rebuilt bucket back under the root. -/
def addSeqToPrefixTree (config : Config) (store : LogClusterCache) (rootNode : Node)
    (cluster : LogCluster) : Except DrainErr (Node × LogClusterCache) :=
  let tokenCount := cluster.logTemplateTokens.length
  let tokenCountStr := itoa tokenCount
  let firstLayerNode :=
    match rootNode.lookupChild tokenCountStr with
    | some n => n
    | none => createNode
  if tokenCount = 0 then
    let leaf := firstLayerNode.setClusterIDs (firstLayerNode.clusterIDs ++ [cluster.id])
    .ok (rootNode.setChild tokenCountStr leaf, store)
  else
    match addSeqLoop config cluster.id tokenCount cluster.logTemplateTokens 1
        firstLayerNode store with
    | .error e => .error e
    | .ok (first', store') => .ok (rootNode.setChild tokenCountStr first', store')

/-- drain.go `Drain`. -/
structure Drain where
  config : Config
  rootNode : Node
  idToCluster : LogClusterCache
  clustersCounter : Nat

/-- drain.go `New`: reject `LogClusterDepth < 3` (a Go panic), derive the
maximum node depth, start from an empty tree and an empty cache. -/
def New (config : Config) : Option Drain :=
  if config.LogClusterDepth < 3 then none
  else
    let config := { config with maxNodeDepth := config.LogClusterDepth - 2 }
    some
      { config := config
        rootNode := createNode
        idToCluster := createLogClusterCache config.MaxClusters
        clustersCounter := 0 }

/-- drain.go `Log` (the train operation): tokenize, search; on a miss allocate
the next id, store the new cluster and splice it into the tree; on a hit merge
the template, bump the size, and touch the cache entry. -/
def Log (d : Drain) (content : String) : Except DrainErr (Drain × LogCluster) :=
  let contentTokens := getContentAsTokens d.config content
  match treeSearch d.config d.idToCluster d.rootNode contentTokens d.config.SimTh false with
  | .error e => .error e
  | .ok (none, store1) =>
    let clusterID := d.clustersCounter + 1
    let matchCluster : LogCluster :=
      { logTemplateTokens := contentTokens, id := clusterID, size := 1 }
    let store2 := store1.Set clusterID matchCluster
    match addSeqToPrefixTree d.config store2 d.rootNode matchCluster with
    | .error e => .error e
    | .ok (root', store3) =>
      .ok ({ d with clustersCounter := clusterID, rootNode := root', idToCluster := store3 },
        matchCluster)
  | .ok (some matchCluster, store1) =>
    match createTemplate d.config contentTokens matchCluster.logTemplateTokens with
    | .error e => .error e
    | .ok newTemplateTokens =>
      let updated :=
        { matchCluster with logTemplateTokens := newTemplateTokens, size := matchCluster.size + 1 }
      let store2 := store1.update matchCluster.id updated
      let store3 := (store2.Get matchCluster.id).2
      .ok ({ d with idToCluster := store3 }, updated)

/-- drain.go `Clusters`. -/
def Clusters (d : Drain) : List LogCluster := d.idToCluster.Values

/-- Modelled from the spec: the repository's `Match` method is called by the
example program but its definition is not under src/.  Spec 4.8: same as the
train steps 1-2 (tokenize, tree search) with `include_params = true`, no state
mutation, no template merge, no store touch beyond the internal match logic;
returns the best cluster or none. -/
def Match (d : Drain) (content : String) : Except DrainErr (Drain × Option LogCluster) :=
  let contentTokens := getContentAsTokens d.config content
  match treeSearch d.config d.idToCluster d.rootNode contentTokens d.config.SimTh true with
  | .error e => .error e
  | .ok (r, store') => .ok ({ d with idToCluster := store' }, r)

/-- Fold `Log` over a list of lines, stopping at the first Go panic. -/
def runTrace (d : Drain) : List String → Except DrainErr Drain
  | [] => .ok d
  | line :: rest =>
    match Log d line with
    | .error e => .error e
    | .ok dc => runTrace dc.1 rest

/-- The states after each successful `Log` call of a trace, newest first,
ending with the start state; observer used to state trace invariants. -/
def traceStates (d : Drain) : List String → List Drain
  | [] => [d]
  | line :: rest =>
    match Log d line with
    | .error _ => [d]
    | .ok dc => traceStates dc.1 rest ++ [d]

/-- The ids of the clusters a trace creates, in creation order; a `Log` call
created a cluster exactly when it advanced the counter. -/
def createdIds (d : Drain) : List String → List Nat
  | [] => []
  | line :: rest =>
    match Log d line with
    | .error _ => []
    | .ok dc =>
      (if d.clustersCounter < dc.1.clustersCounter then [dc.2.id] else []) ++
        createdIds dc.1 rest

/-- The counter of the last state a trace reaches before stopping. -/
def finalCounter (d : Drain) : List String → Nat
  | [] => d.clustersCounter
  | line :: rest =>
    match Log d line with
    | .error _ => d.clustersCounter
    | .ok dc => finalCounter dc.1 rest

/-- drain.go `getTemplate`: the template tokens joined by single spaces. -/
def getTemplate (c : LogCluster) : String := " ".intercalate c.logTemplateTokens

/-- Observer: run a full training trace from a fresh miner and report each
live cluster as (id, size, rendered template), in the store's stable order. -/
def trainSummaries (config : Config) (lines : List String) :
    Option (Except DrainErr (List (Nat × Nat × String))) :=
  (New config).map (fun d0 => (runTrace d0 lines).map (fun d =>
    (Clusters d).map (fun c => (c.id, c.size, getTemplate c))))

/-- Observer: the cache keys in recency order, least recently used first. -/
def storeKeys (d : Drain) : List Nat := d.idToCluster.entries.map Prod.fst

/-- Observer: the cluster ids at the depth-2 node reached by a token-count
bucket key and one token key. -/
def bucketLeafIDs (d : Drain) (bucket token : String) : Option (List Nat) :=
  (d.rootNode.lookupChild bucket).bind
    (fun n => (n.lookupChild token).map Node.clusterIDs)

/-- The nodes reachable from a node by following child edges. -/
inductive Reachable : Node → Node → Prop where
  | refl (n : Node) : Reachable n n
  | step {n m : Node} (p : String × Node) :
      p ∈ n.keyToChildNode → Reachable p.2 m → Reachable n m

/-- The fan-out invariant of non-root nodes: the child map holds at most
`maxChildren` entries, a node without a wildcard child has room for one more,
and the same holds for every descendant. -/
inductive Bounded (maxChildren : Nat) (paramString : String) : Node → Prop where
  | mk (children : List (String × Node)) (ids : List Nat) :
      children.length ≤ maxChildren →
      ((children.find? (fun e => decide (e.1 = paramString))).isNone →
        children.length + 1 ≤ maxChildren) →
      (∀ p ∈ children, Bounded maxChildren paramString p.2) →
      Bounded maxChildren paramString (.mk children ids)

/-- Cache well-formedness: the keys of the recency list are distinct. -/
def cacheWF (c : LogClusterCache) : Prop := (c.entries.map Prod.fst).Nodup

/-- The state invariant of a miner reachable by training from `New`:
the cache keys are distinct; every stored cluster carries its own key as id;
stored and tree-referenced ids never exceed the allocation counter; and every
id referenced under a token-count bucket belongs, if live, to a cluster whose
template length renders to that bucket's key. -/
structure DrainWF (d : Drain) : Prop where
  wf : cacheWF d.idToCluster
  idCoherent : ∀ id cl, d.idToCluster.find? id = some cl → cl.id = id
  storeIdsLe : ∀ id cl, d.idToCluster.find? id = some cl → id ≤ d.clustersCounter
  treeIdsLe : ∀ p ∈ d.rootNode.keyToChildNode, ∀ n, Reachable p.2 n →
    ∀ id ∈ n.clusterIDs, id ≤ d.clustersCounter
  lenOK : ∀ p ∈ d.rootNode.keyToChildNode, ∀ n, Reachable p.2 n →
    ∀ id ∈ n.clusterIDs, ∀ cl, d.idToCluster.find? id = some cl →
      itoa cl.logTemplateTokens.length = p.1

/-- The S1 seed scenario's training lines. -/
def s1lines : List String :=
  ["connected to 10.0.0.1", "connected to 10.0.0.2", "connected to 10.0.0.3",
   "Hex number 0xDEADBEAF", "Hex number 0x10000",
   "user davidoh logged in", "user eranr logged in"]

/-- A two-entry cache fixture: cluster 1 least recently used, cluster 2 most
recently used. -/
def twoEntryStore : LogClusterCache :=
  { maxSize := 100
    entries := [(1, { logTemplateTokens := ["a"], id := 1, size := 1 }),
                (2, { logTemplateTokens := ["b"], id := 2, size := 1 })] }

/-- The tree-side fan-out invariant of a miner state: every node hanging off
the root (the root itself is exempt, its children are the token-count
buckets) satisfies the `Bounded` fan-out discipline. -/
def TreeBounded (d : Drain) : Prop :=
  ∀ p ∈ d.rootNode.keyToChildNode,
    Bounded d.config.MaxChildren d.config.ParamString p.2

/-- Observer: train a trace and report the number of children of the root. -/
def rootFanOut (config : Config) (lines : List String) :
    Option (Except DrainErr Nat) :=
  (New config).map (fun d0 =>
    (runTrace d0 lines).map (fun d => d.rootNode.keyToChildNode.length))

/-- Observer: train a trace and report the number of children of the
token-count bucket named by `bucket`. -/
def bucketFanOut (config : Config) (lines : List String) (bucket : String) :
    Option (Except DrainErr (Option Nat)) :=
  (New config).map (fun d0 => (runTrace d0 lines).map (fun d =>
    (d.rootNode.lookupChild bucket).map (fun n => n.keyToChildNode.length)))

/-- Observer: train a trace and report the cache keys in recency order. -/
def traceStoreKeys (config : Config) (lines : List String) :
    Option (Except DrainErr (List Nat)) :=
  (New config).map (fun d0 => (runTrace d0 lines).map storeKeys)

/-- Observer: train a trace and report the cluster ids at a depth-2 node. -/
def traceLeafIDs (config : Config) (lines : List String) (bucket token : String) :
    Option (Except DrainErr (Option (List Nat))) :=
  (New config).map (fun d0 =>
    (runTrace d0 lines).map (fun d => bucketLeafIDs d bucket token))

/-- Observer: train a trace and look a cluster id up in the store (without
touching). -/
def traceFindCluster (config : Config) (lines : List String) (id : Nat) :
    Option (Except DrainErr (Option LogCluster)) :=
  (New config).map (fun d0 =>
    (runTrace d0 lines).map (fun d => d.idToCluster.find? id))

/-- The miner state `New DefaultConfig` constructs. -/
def drainD0 : Drain :=
  { config := { DefaultConfig with maxNodeDepth := 2 }
    rootNode := createNode
    idToCluster := createLogClusterCache 0
    clustersCounter := 0 }

/-- Extract the state a successful trace reaches (the start state on error);
used to name concrete states in witness statements. -/
def runTraceD (d : Drain) (lines : List String) : Drain :=
  match runTrace d lines with
  | .ok d' => d'
  | .error _ => d

/-- Extract the state a successful `Log` call reaches. -/
def LogD (d : Drain) (content : String) : Drain :=
  match Log d content with
  | .ok dc => dc.1
  | .error _ => d

/-- Extract the cluster a successful `Log` call returns. -/
def LogRet (d : Drain) (content : String) : LogCluster :=
  match Log d content with
  | .ok dc => dc.2
  | .error _ => { logTemplateTokens := [], id := 0, size := 0 }

/-- The S7 seed scenario's configuration: an LRU capacity of two clusters. -/
def cfgTwoClusters : Config := { DefaultConfig with MaxClusters := 2 }

/-- The S7-style trace: three distinct-shape lines (the third evicts the
first's cluster), then a line whose tree path still references the evicted
id. -/
def c7lines : List String := ["a b", "c d e", "f g h i", "a b"]

theorem find?_key_filter_self (l : List (Nat × LogCluster)) (k : Nat) :
    (l.filter (fun x => decide (x.1 ≠ k))).find? (fun e => decide (e.1 = k)) = none := by
  rw [List.find?_eq_none]
  intro x hx
  have := List.of_mem_filter hx
  simpa using this

theorem find?_key_filter_ne (l : List (Nat × LogCluster)) (k j : Nat) (h : j ≠ k) :
    (l.filter (fun x => decide (x.1 ≠ k))).find? (fun e => decide (e.1 = j)) =
      l.find? (fun e => decide (e.1 = j)) := by
  induction l with
  | nil => rfl
  | cons a t ih =>
    by_cases ha : a.1 = k
    · rw [List.filter_cons_of_neg (by simpa using ha), ih,
        List.find?_cons_of_neg _ (by simp [ha]; omega)]
    · rw [List.filter_cons_of_pos (by simpa using ha)]
      by_cases haj : a.1 = j
      · rw [List.find?_cons_of_pos _ (by simpa using haj),
          List.find?_cons_of_pos _ (by simpa using haj)]
      · rw [List.find?_cons_of_neg _ (by simpa using haj),
          List.find?_cons_of_neg _ (by simpa using haj), ih]

theorem Get_fst (c : LogClusterCache) (k : Nat) : (c.Get k).1 = c.find? k := by
  unfold LogClusterCache.Get LogClusterCache.find?
  cases h : c.entries.find? (fun e => decide (e.1 = k)) <;> simp [h]

theorem Get_find? (c : LogClusterCache) (k j : Nat) :
    ((c.Get k).2).find? j = c.find? j := by
  unfold LogClusterCache.Get
  cases h : c.entries.find? (fun e => decide (e.1 = k)) with
  | none => rfl
  | some e =>
    have hek : e.1 = k := by simpa using List.find?_some h
    unfold LogClusterCache.find?
    simp only
    rw [List.find?_append]
    by_cases hj : j = k
    · subst hj
      rw [find?_key_filter_self, List.find?_cons_of_pos _ (by simp [hek]), h]
      rfl
    · rw [find?_key_filter_ne _ _ _ hj, List.find?_cons_of_neg _ (by simp [hek]; omega)]
      simp

theorem Get_maxSize (c : LogClusterCache) (k : Nat) : ((c.Get k).2).maxSize = c.maxSize := by
  unfold LogClusterCache.Get
  cases h : c.entries.find? (fun e => decide (e.1 = k)) <;> rfl

theorem Get_wf (c : LogClusterCache) (k : Nat) (h : cacheWF c) : cacheWF (c.Get k).2 := by
  unfold LogClusterCache.Get
  cases hf : c.entries.find? (fun e => decide (e.1 = k)) with
  | none => exact h
  | some e =>
    have hek : e.1 = k := by simpa using List.find?_some hf
    unfold cacheWF at h ⊢
    simp only
    rw [List.map_append]
    refine List.Nodup.append
      (List.Nodup.sublist (List.Sublist.map _ (List.filter_sublist _)) h)
      (by simp) ?_
    intro a ha hb
    simp only [List.map_cons, List.map_nil, List.mem_singleton] at hb
    rcases List.mem_map.mp ha with ⟨x, hx, hfst⟩
    have hxk := List.of_mem_filter hx
    simp only [decide_eq_true_eq] at hxk
    exact hxk (by rw [hfst, hb, hek])

theorem update_find?_eq (c : LogClusterCache) (k : Nat) (v : LogCluster) :
    (c.update k v).find? k = (c.find? k).map (fun _ => v) := by
  unfold LogClusterCache.update LogClusterCache.find?
  simp only
  induction c.entries with
  | nil => rfl
  | cons a t ih =>
    by_cases ha : a.1 = k
    · rw [List.map_cons, if_pos ha, List.find?_cons_of_pos _ (by simp),
        List.find?_cons_of_pos _ (by simp [ha])]
      rfl
    · rw [List.map_cons, if_neg ha, List.find?_cons_of_neg _ (by simpa using ha),
        List.find?_cons_of_neg _ (by simpa using ha), ih]

theorem update_find?_ne (c : LogClusterCache) (k : Nat) (v : LogCluster) (j : Nat)
    (h : j ≠ k) : (c.update k v).find? j = c.find? j := by
  unfold LogClusterCache.update LogClusterCache.find?
  simp only
  induction c.entries with
  | nil => rfl
  | cons a t ih =>
    by_cases ha : a.1 = k
    · rw [List.map_cons, if_pos ha, List.find?_cons_of_neg _ (by simp; omega),
        List.find?_cons_of_neg _ (by simp [ha]; omega), ih]
    · by_cases haj : a.1 = j
      · rw [List.map_cons, if_neg ha, List.find?_cons_of_pos _ (by simpa using haj),
          List.find?_cons_of_pos _ (by simpa using haj)]
      · rw [List.map_cons, if_neg ha, List.find?_cons_of_neg _ (by simpa using haj),
          List.find?_cons_of_neg _ (by simpa using haj), ih]

theorem update_keys (c : LogClusterCache) (k : Nat) (v : LogCluster) :
    (c.update k v).entries.map Prod.fst = c.entries.map Prod.fst := by
  unfold LogClusterCache.update
  simp only
  induction c.entries with
  | nil => rfl
  | cons a t ih =>
    by_cases ha : a.1 = k <;> simp [ha, ih]

theorem update_wf (c : LogClusterCache) (k : Nat) (v : LogCluster) (h : cacheWF c) :
    cacheWF (c.update k v) := by
  unfold cacheWF
  rw [update_keys]
  exact h

theorem update_maxSize (c : LogClusterCache) (k : Nat) (v : LogCluster) :
    (c.update k v).maxSize = c.maxSize := rfl

theorem Set_find?_some (c : LogClusterCache) (k : Nat) (v : LogCluster) (j : Nat)
    (cl : LogCluster) (hwf : cacheWF c) (h : (c.Set k v).find? j = some cl) :
    (j = k ∧ cl = v) ∨ c.find? j = some cl := by
  unfold LogClusterCache.Set at h
  by_cases hmem : c.entries.any (fun e => decide (e.1 = k))
  · rw [if_pos hmem] at h
    unfold LogClusterCache.find? at h ⊢
    simp only at h
    rw [List.find?_append] at h
    by_cases hj : j = k
    · subst hj
      rw [find?_key_filter_self] at h
      simp at h
      exact Or.inl ⟨rfl, h.symm⟩
    · rw [find?_key_filter_ne _ _ _ hj, List.find?_cons_of_neg _ (by simp; omega)] at h
      simp only [List.find?_nil, Option.or_none] at h
      exact Or.inr h
  · rw [if_neg hmem] at h
    simp only [List.any_eq_true, not_exists, not_and, decide_eq_true_eq] at hmem
    by_cases hlen : c.maxSize < (c.entries ++ [(k, v)]).length
    · rw [if_pos hlen] at h
      cases hc : c.entries with
      | nil =>
        rw [hc] at h
        simp [LogClusterCache.find?] at h
      | cons a t =>
        rw [hc] at h
        unfold LogClusterCache.find? at h
        simp only [List.cons_append, List.drop_one, List.tail_cons] at h
        rw [List.find?_append] at h
        cases hft : t.find? (fun e => decide (e.1 = j)) with
        | some f =>
          rw [hft] at h
          simp only [Option.or_some] at h
          right
          unfold LogClusterCache.find?
          rw [hc]
          have haj : ¬ a.1 = j := by
            intro haj
            have hfj : f.1 = j := by simpa using List.find?_some hft
            have hnd : (List.map Prod.fst (a :: t)).Nodup := by
              unfold cacheWF at hwf; rw [hc] at hwf; exact hwf
            rw [List.map_cons, List.nodup_cons] at hnd
            exact hnd.1 (haj ▸ hfj ▸ List.mem_map_of_mem Prod.fst (List.mem_of_find?_eq_some hft))
          rw [List.find?_cons_of_neg _ (by simpa using haj), hft]
          simpa using h
        | none =>
          rw [hft] at h
          simp only [Option.none_or] at h
          by_cases hj : j = k
          · subst hj
            rw [List.find?_cons_of_pos _ (by simp)] at h
            simp at h
            exact Or.inl ⟨rfl, h.symm⟩
          · rw [List.find?_cons_of_neg _ (by simp; omega)] at h
            simp at h
    · rw [if_neg hlen] at h
      unfold LogClusterCache.find? at h ⊢
      simp only at h
      rw [List.find?_append] at h
      cases hfe : c.entries.find? (fun e => decide (e.1 = j)) with
      | some f =>
        rw [hfe] at h
        simp only [Option.or_some] at h
        exact Or.inr (by simpa using h)
      | none =>
        rw [hfe] at h
        simp only [Option.none_or] at h
        by_cases hj : j = k
        · subst hj
          rw [List.find?_cons_of_pos _ (by simp)] at h
          simp at h
          exact Or.inl ⟨rfl, h.symm⟩
        · rw [List.find?_cons_of_neg _ (by simp; omega)] at h
          simp at h

theorem Set_maxSize (c : LogClusterCache) (k : Nat) (v : LogCluster) :
    (c.Set k v).maxSize = c.maxSize := by
  unfold LogClusterCache.Set
  split
  · rfl
  · split <;> rfl

theorem Set_wf (c : LogClusterCache) (k : Nat) (v : LogCluster) (h : cacheWF c) :
    cacheWF (c.Set k v) := by
  unfold LogClusterCache.Set
  by_cases hmem : c.entries.any (fun e => decide (e.1 = k))
  · rw [if_pos hmem]
    unfold cacheWF at h ⊢
    simp only
    rw [List.map_append]
    refine List.Nodup.append
      (List.Nodup.sublist (List.Sublist.map _ (List.filter_sublist _)) h)
      (by simp) ?_
    intro a ha hb
    simp only [List.map_cons, List.map_nil, List.mem_singleton] at hb
    rcases List.mem_map.mp ha with ⟨x, hx, hfst⟩
    have hxk := List.of_mem_filter hx
    simp only [decide_eq_true_eq] at hxk
    exact hxk (by rw [hfst, hb])
  · rw [if_neg hmem]
    simp only [List.any_eq_true, not_exists, not_and, decide_eq_true_eq] at hmem
    have hnd : ((c.entries ++ [(k, v)]).map Prod.fst).Nodup := by
      rw [List.map_append]
      refine List.Nodup.append h (by simp) ?_
      intro a ha hb
      simp only [List.map_cons, List.map_nil, List.mem_singleton] at hb
      rcases List.mem_map.mp ha with ⟨x, hx, hfst⟩
      exact hmem x hx (by rw [hfst, hb])
    unfold cacheWF
    split
    · rw [List.map_drop]
      exact List.Nodup.sublist (List.drop_sublist _ _) hnd
    · exact hnd

theorem itoaAux_shift (fuel : Nat) : ∀ (n : Nat) (acc : List Char),
    itoaAux (fuel + 1) n acc = itoaAux (fuel + 1) n [] ++ acc := by
  induction fuel with
  | zero =>
    intro n acc
    by_cases h : n < 10 <;> simp [itoaAux, h]
  | succ f ih =>
    intro n acc
    have e1 : ∀ ac, itoaAux (f + 1 + 1) n ac =
        if n < 10 then digitChar (n % 10) :: ac
        else itoaAux (f + 1) (n / 10) (digitChar (n % 10) :: ac) := fun ac => rfl
    by_cases h : n < 10
    · rw [e1, e1, if_pos h, if_pos h]
      rfl
    · rw [e1, e1, if_neg h, if_neg h, ih (n / 10) (digitChar (n % 10) :: acc),
        ih (n / 10) [digitChar (n % 10)]]
      simp

theorem lt_ten_pow_succ (k : Nat) : k < 10 ^ (k + 1) := by
  have h1 : k < 2 ^ k := Nat.lt_two_pow k
  have h2 : 2 ^ k ≤ 10 ^ k := Nat.pow_le_pow_left (by norm_num) k
  have h3 : 0 < 10 ^ k := Nat.pos_pow_of_pos k (by norm_num)
  have h4 : 10 ^ (k + 1) = 10 ^ k * 10 := pow_succ 10 k
  omega

theorem itoaAux_fuel : ∀ (f f' n : Nat) (acc : List Char), n < 10 ^ (f + 1) →
    n < 10 ^ (f' + 1) → itoaAux (f + 1) n acc = itoaAux (f' + 1) n acc := by
  intro f
  induction f with
  | zero =>
    intro f' n acc h h'
    have hn : n < 10 := by simpa using h
    cases f' with
    | zero => rfl
    | succ g' => simp [itoaAux, hn]
  | succ g ih =>
    intro f' n acc h h'
    by_cases hn : n < 10
    · cases f' with
      | zero => simp [itoaAux, hn]
      | succ g' => simp [itoaAux, hn]
    · cases f' with
      | zero =>
        have : n < 10 := by simpa using h'
        omega
      | succ g' =>
        have e1 : ∀ f ac, itoaAux (f + 1 + 1) n ac =
            if n < 10 then digitChar (n % 10) :: ac
            else itoaAux (f + 1) (n / 10) (digitChar (n % 10) :: ac) := fun f ac => rfl
        rw [e1, e1, if_neg hn, if_neg hn]
        have hd : n / 10 < 10 ^ (g + 1) := by
          rw [Nat.div_lt_iff_lt_mul (by norm_num)]
          have : 10 ^ (g + 1 + 1) = 10 ^ (g + 1) * 10 := pow_succ 10 (g + 1)
          omega
        have hd' : n / 10 < 10 ^ (g' + 1) := by
          rw [Nat.div_lt_iff_lt_mul (by norm_num)]
          have : 10 ^ (g' + 1 + 1) = 10 ^ (g' + 1) * 10 := pow_succ 10 (g' + 1)
          omega
        exact ih g' (n / 10) _ hd hd'

theorem itoa_small (n : Nat) (h : n < 10) : itoaAux (n + 1) n [] = [digitChar n] := by
  have e1 : itoaAux (n + 1) n [] =
      if n < 10 then [digitChar (n % 10)] else itoaAux n (n / 10) [digitChar (n % 10)] := by
    cases n with
    | zero => rfl
    | succ m => rfl
  rw [e1, if_pos h, Nat.mod_eq_of_lt h]

theorem itoa_step (n : Nat) (h : 10 ≤ n) :
    itoaAux (n + 1) n [] = itoaAux (n / 10 + 1) (n / 10) [] ++ [digitChar (n % 10)] := by
  have e1 : itoaAux (n + 1) n [] =
      if n < 10 then [digitChar (n % 10)] else itoaAux n (n / 10) [digitChar (n % 10)] := by
    cases n with
    | zero => rfl
    | succ m => rfl
  have hn1 : n - 1 + 1 = n := by omega
  have b1 : n / 10 < 10 ^ (n - 1 + 1) := by
    rw [hn1]
    have ha := Nat.lt_pow_self (show (1:ℕ) < 10 by norm_num) n
    have hb := Nat.div_le_self n 10
    omega
  have h2 := itoaAux_fuel (n - 1) (n / 10) (n / 10) [digitChar (n % 10)] b1
    (lt_ten_pow_succ _)
  rw [hn1] at h2
  rw [e1, if_neg (by omega), h2, itoaAux_shift]

theorem itoaAux_ne_nil (n : Nat) : itoaAux (n + 1) n [] ≠ [] := by
  by_cases h : n < 10
  · rw [itoa_small n h]
    simp
  · rw [itoa_step n (by omega)]
    simp

theorem digitChar_toNat (d : Nat) (h : d < 10) : (digitChar d).toNat = 48 + d := by
  interval_cases d <;> rfl

theorem digitChar_inj (a b : Nat) (ha : a < 10) (hb : b < 10)
    (h : digitChar a = digitChar b) : a = b := by
  have h2 := congrArg Char.toNat h
  rw [digitChar_toNat a ha, digitChar_toNat b hb] at h2
  omega

theorem itoaAux_inj : ∀ (m n : Nat), itoaAux (m + 1) m [] = itoaAux (n + 1) n [] → m = n := by
  intro m
  induction m using Nat.strong_induction_on with
  | _ m ih =>
    intro n h
    by_cases hm : m < 10 <;> by_cases hn : n < 10
    · rw [itoa_small m hm, itoa_small n hn] at h
      exact digitChar_inj m n hm hn (by simpa using h)
    · rw [itoa_small m hm, itoa_step n (by omega)] at h
      have hlen := congrArg List.length h
      simp at hlen
      exact absurd hlen (itoaAux_ne_nil _)
    · rw [itoa_step m (by omega), itoa_small n hn] at h
      have hlen := congrArg List.length h
      simp at hlen
      exact absurd hlen (itoaAux_ne_nil _)
    · rw [itoa_step m (by omega), itoa_step n (by omega)] at h
      have h2 := congrArg List.reverse h
      simp only [List.reverse_append, List.reverse_cons, List.reverse_nil,
        List.nil_append, List.singleton_append, List.cons.injEq] at h2
      have hmod : m % 10 = n % 10 :=
        digitChar_inj _ _ (Nat.mod_lt _ (by norm_num)) (Nat.mod_lt _ (by norm_num)) h2.1
      have hdiveq : m / 10 = n / 10 := by
        apply ih (m / 10) (Nat.div_lt_self (by omega) (by norm_num))
        exact List.reverse_inj.mp h2.2
      have hd1 := Nat.div_add_mod m 10
      have hd2 := Nat.div_add_mod n 10
      omega

theorem itoa_inj (m n : Nat) (h : itoa m = itoa n) : m = n := by
  apply itoaAux_inj
  have h2 := congrArg String.data h
  simpa [itoa] using h2

theorem keyToChildNode_mk (m : List (String × Node)) (ids : List Nat) :
    (Node.mk m ids).keyToChildNode = m := rfl

theorem clusterIDs_mk (m : List (String × Node)) (ids : List Nat) :
    (Node.mk m ids).clusterIDs = ids := rfl

theorem setChild_clusterIDs (n : Node) (k : String) (c : Node) :
    (n.setChild k c).clusterIDs = n.clusterIDs := by
  unfold Node.setChild
  split <;> rfl

theorem setClusterIDs_children (n : Node) (ids : List Nat) :
    (n.setClusterIDs ids).keyToChildNode = n.keyToChildNode := by
  cases n
  rfl

theorem setClusterIDs_ids (n : Node) (ids : List Nat) :
    (n.setClusterIDs ids).clusterIDs = ids := by
  cases n
  rfl

theorem setChild_children_mem (n : Node) (k : String) (c : Node) (p : String × Node)
    (hp : p ∈ (n.setChild k c).keyToChildNode) : p = (k, c) ∨ p ∈ n.keyToChildNode := by
  unfold Node.setChild at hp
  by_cases hmem : n.keyToChildNode.any (fun e => decide (e.1 = k))
  · rw [if_pos hmem] at hp
    rw [keyToChildNode_mk] at hp
    rcases List.mem_map.mp hp with ⟨q, hq, hpq⟩
    by_cases hqk : q.1 = k
    · rw [if_pos hqk] at hpq
      exact Or.inl hpq.symm
    · rw [if_neg hqk] at hpq
      exact Or.inr (hpq ▸ hq)
  · rw [if_neg hmem] at hp
    rw [keyToChildNode_mk] at hp
    rcases List.mem_append.mp hp with h1 | h1
    · exact Or.inr h1
    · exact Or.inl (List.mem_singleton.mp h1)

theorem lookupChild_mem (n : Node) (k : String) (c : Node)
    (h : n.lookupChild k = some c) : (k, c) ∈ n.keyToChildNode := by
  unfold Node.lookupChild at h
  cases hf : n.keyToChildNode.find? (fun e => decide (e.1 = k)) with
  | none => rw [hf] at h; cases h
  | some e =>
    rw [hf] at h
    have hek : e.1 = k := by simpa using List.find?_some hf
    have hmem := List.mem_of_find?_eq_some hf
    have hc : e.2 = c := by simpa using h
    have : (k, c) = e := by
      rw [← hek, ← hc]
    rw [this]
    exact hmem

theorem lookupChild_any (n : Node) (k : String) (c : Node)
    (h : n.lookupChild k = some c) :
    n.keyToChildNode.any (fun e => decide (e.1 = k)) = true := by
  rw [List.any_eq_true]
  exact ⟨(k, c), lookupChild_mem n k c h, by exact decide_eq_true rfl⟩

theorem lookupChild_none_any (n : Node) (k : String)
    (h : n.lookupChild k = none) :
    n.keyToChildNode.any (fun e => decide (e.1 = k)) = false := by
  unfold Node.lookupChild at h
  cases hf : n.keyToChildNode.find? (fun e => decide (e.1 = k)) with
  | some e => rw [hf] at h; cases h
  | none =>
    rw [List.find?_eq_none] at hf
    rcases hh : n.keyToChildNode.any (fun e => decide (e.1 = k)) with _ | _
    · rfl
    · rcases List.any_eq_true.mp hh with ⟨x, hx, hxk⟩
      exact absurd hxk (hf x hx)

theorem reachable_setChild (n : Node) (key : String) (child x : Node)
    (h : Reachable (n.setChild key child) x) :
    x = n.setChild key child ∨ (∃ p ∈ n.keyToChildNode, Reachable p.2 x) ∨
      Reachable child x := by
  cases h with
  | refl => exact Or.inl rfl
  | step p hp hr =>
    rcases setChild_children_mem n key child p hp with h1 | h1
    · right; right
      rw [h1] at hr
      exact hr
    · exact Or.inr (Or.inl ⟨p, h1, hr⟩)

theorem reachable_setClusterIDs (n : Node) (ids : List Nat) (x : Node)
    (h : Reachable (n.setClusterIDs ids) x) :
    x = n.setClusterIDs ids ∨ ∃ p ∈ n.keyToChildNode, Reachable p.2 x := by
  cases h with
  | refl => exact Or.inl rfl
  | step p hp hr =>
    rw [setClusterIDs_children] at hp
    exact Or.inr ⟨p, hp, hr⟩

theorem reachable_createNode (x : Node) (h : Reachable createNode x) : x = createNode := by
  cases h with
  | refl => rfl
  | step p hp hr =>
    unfold createNode at hp
    rw [keyToChildNode_mk] at hp
    cases hp

theorem treeSearchLoop_reachable (config : Config) (tokenCount : Nat) :
    ∀ (tokens : List String) (depth : Nat) (cur leaf : Node),
      treeSearchLoop config tokenCount tokens depth cur = some leaf →
      Reachable cur leaf := by
  intro tokens
  induction tokens with
  | nil =>
    intro depth cur leaf h
    unfold treeSearchLoop at h
    cases h
    exact Reachable.refl _
  | cons t rest ih =>
    intro depth cur leaf h
    unfold treeSearchLoop at h
    by_cases h1 : depth ≥ config.maxNodeDepth
    · rw [if_pos h1] at h
      cases h
      exact Reachable.refl _
    · rw [if_neg h1] at h
      by_cases h2 : depth = tokenCount
      · rw [if_pos h2] at h
        cases h
        exact Reachable.refl _
      · rw [if_neg h2] at h
        cases hc : cur.lookupChild t with
        | some child =>
          rw [hc] at h
          exact Reachable.step (t, child) (lookupChild_mem _ _ _ hc) (ih _ child leaf h)
        | none =>
          rw [hc] at h
          cases hw : cur.lookupChild config.ParamString with
          | some child =>
            rw [hw] at h
            exact Reachable.step (config.ParamString, child)
              (lookupChild_mem _ _ _ hw) (ih _ child leaf h)
          | none =>
            rw [hw] at h
            cases h

theorem addSeqStep_cases (config : Config) (cur : Node) (token : String)
    (kc : String × Node) (h : addSeqStep config cur token = some kc) :
    kc.2 = createNode ∨ (kc.1, kc.2) ∈ cur.keyToChildNode := by
  unfold addSeqStep at h
  cases hc : cur.lookupChild token with
  | some child =>
    rw [hc] at h
    injection h with h
    subst h
    exact Or.inr (lookupChild_mem _ _ _ hc)
  | none =>
    rw [hc] at h
    by_cases hd : hasNumbers token
    · rw [if_neg (by simpa using hd)] at h
      cases hw : cur.lookupChild config.ParamString with
      | none =>
        rw [hw] at h
        injection h with h
        subst h
        exact Or.inl rfl
      | some wildcard =>
        rw [hw] at h
        injection h with h
        subst h
        exact Or.inr (lookupChild_mem _ _ _ hw)
    · rw [if_pos (by simpa using hd)] at h
      cases hw : cur.lookupChild config.ParamString with
      | some wildcard =>
        rw [hw] at h
        dsimp only at h
        by_cases hl : cur.keyToChildNode.length < config.MaxChildren
        · rw [if_pos hl] at h
          injection h with h
          subst h
          exact Or.inl rfl
        · rw [if_neg hl] at h
          injection h with h
          subst h
          exact Or.inr (lookupChild_mem _ _ _ hw)
      | none =>
        rw [hw] at h
        dsimp only at h
        by_cases hl : cur.keyToChildNode.length + 1 < config.MaxChildren
        · rw [if_pos hl] at h
          injection h with h
          subst h
          exact Or.inl rfl
        · rw [if_neg hl] at h
          by_cases he : cur.keyToChildNode.length + 1 = config.MaxChildren
          · rw [if_pos he] at h
            injection h with h
            subst h
            exact Or.inl rfl
          · rw [if_neg he] at h
            cases h

theorem pruneClusterIDs_find? : ∀ (ids : List Nat) (store : LogClusterCache) (j : Nat),
    ((pruneClusterIDs store ids).2).find? j = store.find? j := by
  intro ids
  induction ids with
  | nil => intro store j; rfl
  | cons i rest ih =>
    intro store j
    have hs2 : (store.Get i).2.find? j = store.find? j := Get_find? store i j
    unfold pruneClusterIDs
    cases hg : LogClusterCache.Get store i with
    | mk r s' =>
      rw [hg] at hs2
      dsimp only at hs2
      cases r with
      | none =>
        dsimp only
        rw [ih s' j]
        exact hs2
      | some c =>
        dsimp only
        rw [ih s' j]
        exact hs2

theorem pruneClusterIDs_maxSize : ∀ (ids : List Nat) (store : LogClusterCache),
    ((pruneClusterIDs store ids).2).maxSize = store.maxSize := by
  intro ids
  induction ids with
  | nil => intro store; rfl
  | cons i rest ih =>
    intro store
    have hs2 : (store.Get i).2.maxSize = store.maxSize := Get_maxSize store i
    unfold pruneClusterIDs
    cases hg : LogClusterCache.Get store i with
    | mk r s' =>
      rw [hg] at hs2
      dsimp only at hs2
      cases r with
      | none =>
        dsimp only
        rw [ih s']
        exact hs2
      | some c =>
        dsimp only
        rw [ih s']
        exact hs2

theorem pruneClusterIDs_wf : ∀ (ids : List Nat) (store : LogClusterCache),
    cacheWF store → cacheWF (pruneClusterIDs store ids).2 := by
  intro ids
  induction ids with
  | nil => intro store h; exact h
  | cons i rest ih =>
    intro store h
    have hs2 : cacheWF (store.Get i).2 := Get_wf store i h
    unfold pruneClusterIDs
    cases hg : LogClusterCache.Get store i with
    | mk r s' =>
      rw [hg] at hs2
      dsimp only at hs2
      cases r with
      | none =>
        dsimp only
        exact ih s' hs2
      | some c =>
        dsimp only
        exact ih s' hs2

theorem pruneClusterIDs_fst : ∀ (ids : List Nat) (store : LogClusterCache),
    (pruneClusterIDs store ids).1 = ids.filter (fun i => (store.find? i).isSome) := by
  intro ids
  induction ids with
  | nil => intro store; rfl
  | cons i rest ih =>
    intro store
    have hfst : (store.Get i).1 = store.find? i := Get_fst store i
    have hpt : ∀ x ∈ rest,
        ((store.Get i).2.find? x).isSome = ((store.find? x).isSome) := by
      intro x _
      rw [Get_find?]
    unfold pruneClusterIDs
    cases hg : LogClusterCache.Get store i with
    | mk r s' =>
      rw [hg] at hfst hpt
      dsimp only at hfst hpt
      cases r with
      | some c =>
        dsimp only
        rw [ih s', List.filter_congr hpt, List.filter_cons,
          if_pos (by rw [← hfst]; rfl)]
      | none =>
        dsimp only
        rw [ih s', List.filter_congr hpt, List.filter_cons,
          if_neg (by rw [← hfst]; simp)]

theorem addSeqLoop_store (config : Config) (clusterID tokenCount : Nat) :
    ∀ (tokens : List String) (depth : Nat) (cur : Node) (store : LogClusterCache)
      (res : Node × LogClusterCache),
      addSeqLoop config clusterID tokenCount tokens depth cur store = .ok res →
      (∀ j, res.2.find? j = store.find? j) ∧ res.2.maxSize = store.maxSize ∧
        (cacheWF store → cacheWF res.2) := by
  intro tokens
  induction tokens with
  | nil =>
    intro depth cur store res h
    unfold addSeqLoop at h
    injection h with h
    subst h
    exact ⟨fun j => rfl, rfl, id⟩
  | cons t rest ih =>
    intro depth cur store res h
    unfold addSeqLoop at h
    by_cases hl : depth ≥ config.maxNodeDepth ∨ depth ≥ tokenCount
    · rw [if_pos hl] at h
      injection h with h
      subst h
      exact ⟨fun j => pruneClusterIDs_find? _ _ _, pruneClusterIDs_maxSize _ _,
        pruneClusterIDs_wf _ _⟩
    · rw [if_neg hl] at h
      cases hs : addSeqStep config cur t with
      | none =>
        rw [hs] at h
        cases rest with
        | nil =>
          injection h with h
          subst h
          exact ⟨fun j => rfl, rfl, id⟩
        | cons r rs => exact Except.noConfusion h
      | some kc =>
        rw [hs] at h
        dsimp only at h
        cases hrec : addSeqLoop config clusterID tokenCount rest (depth + 1) kc.2 store with
        | error e => rw [hrec] at h; exact Except.noConfusion h
        | ok res' =>
          obtain ⟨child', store'⟩ := res'
          rw [hrec] at h
          injection h with h
          subst h
          rcases ih (depth + 1) kc.2 store (child', store') hrec with ⟨h1, h2, h3⟩
          exact ⟨h1, h2, h3⟩

theorem addSeqLoop_ids (config : Config) (clusterID tokenCount : Nat) :
    ∀ (tokens : List String) (depth : Nat) (cur : Node) (store : LogClusterCache)
      (res : Node × LogClusterCache),
      addSeqLoop config clusterID tokenCount tokens depth cur store = .ok res →
      ∀ x, Reachable res.1 x → ∀ id ∈ x.clusterIDs,
        id = clusterID ∨ ∃ m, Reachable cur m ∧ id ∈ m.clusterIDs := by
  intro tokens
  induction tokens with
  | nil =>
    intro depth cur store res h x hx id hid
    unfold addSeqLoop at h
    injection h with h
    subst h
    exact Or.inr ⟨x, hx, hid⟩
  | cons t rest ih =>
    intro depth cur store res h x hx id hid
    unfold addSeqLoop at h
    by_cases hl : depth ≥ config.maxNodeDepth ∨ depth ≥ tokenCount
    · rw [if_pos hl] at h
      injection h with h
      subst h
      rcases reachable_setClusterIDs _ _ _ hx with h1 | ⟨p, hp, hr⟩
      · rw [h1, setClusterIDs_ids] at hid
        rcases List.mem_append.mp hid with hm | hm
        · rw [pruneClusterIDs_fst] at hm
          exact Or.inr ⟨cur, Reachable.refl _, List.mem_of_mem_filter hm⟩
        · exact Or.inl (List.mem_singleton.mp hm)
      · exact Or.inr ⟨x, Reachable.step p hp hr, hid⟩
    · rw [if_neg hl] at h
      cases hs : addSeqStep config cur t with
      | none =>
        rw [hs] at h
        cases rest with
        | nil =>
          injection h with h
          subst h
          exact Or.inr ⟨x, hx, hid⟩
        | cons r rs => exact Except.noConfusion h
      | some kc =>
        rw [hs] at h
        dsimp only at h
        cases hrec : addSeqLoop config clusterID tokenCount rest (depth + 1) kc.2 store with
        | error e => rw [hrec] at h; exact Except.noConfusion h
        | ok res' =>
          obtain ⟨child', store'⟩ := res'
          rw [hrec] at h
          injection h with h
          subst h
          rcases reachable_setChild _ _ _ _ hx with h1 | ⟨p, hp, hr⟩ | hr
          · rw [h1, setChild_clusterIDs] at hid
            exact Or.inr ⟨cur, Reachable.refl _, hid⟩
          · exact Or.inr ⟨x, Reachable.step p hp hr, hid⟩
          · rcases ih (depth + 1) kc.2 store (child', store') hrec x hr id hid with
              h2 | ⟨m, hm, hmid⟩
            · exact Or.inl h2
            · rcases addSeqStep_cases config cur t kc hs with hkc | hkc
              · rw [hkc] at hm
                have hmc := reachable_createNode m hm
                rw [hmc] at hmid
                unfold createNode at hmid
                rw [clusterIDs_mk] at hmid
                cases hmid
              · exact Or.inr ⟨m, Reachable.step (kc.1, kc.2) hkc hm, hmid⟩

theorem Bounded_intro (m : Nat) (p : String) (n : Node)
    (h1 : n.keyToChildNode.length ≤ m)
    (h2 : (n.keyToChildNode.find? (fun e => decide (e.1 = p))).isNone →
      n.keyToChildNode.length + 1 ≤ m)
    (h3 : ∀ q ∈ n.keyToChildNode, Bounded m p q.2) : Bounded m p n := by
  cases n with
  | mk children ids => exact Bounded.mk children ids h1 h2 h3

theorem Bounded_length (m : Nat) (p : String) (n : Node) (h : Bounded m p n) :
    n.keyToChildNode.length ≤ m := by
  cases h with
  | mk children ids h1 h2 h3 => exact h1

theorem Bounded_nowild (m : Nat) (p : String) (n : Node) (h : Bounded m p n)
    (hw : (n.keyToChildNode.find? (fun e => decide (e.1 = p))).isNone) :
    n.keyToChildNode.length + 1 ≤ m := by
  cases h with
  | mk children ids h1 h2 h3 => exact h2 hw

theorem Bounded_children (m : Nat) (p : String) (n : Node) (h : Bounded m p n) :
    ∀ q ∈ n.keyToChildNode, Bounded m p q.2 := by
  cases h with
  | mk children ids h1 h2 h3 => exact h3

theorem Bounded_createNode (m : Nat) (p : String) (hm : 1 ≤ m) :
    Bounded m p createNode := by
  refine Bounded.mk [] [] (by simp) (fun _ => by simpa using hm) (by simp)

theorem Bounded_setClusterIDs (m : Nat) (p : String) (n : Node) (ids : List Nat)
    (h : Bounded m p n) : Bounded m p (n.setClusterIDs ids) := by
  refine Bounded_intro m p _ ?_ ?_ ?_ <;> rw [setClusterIDs_children]
  · exact Bounded_length m p n h
  · exact Bounded_nowild m p n h
  · exact Bounded_children m p n h

theorem setChild_keys_mem (n : Node) (k : String) (c : Node)
    (hmem : n.keyToChildNode.any (fun e => decide (e.1 = k)) = true) :
    (n.setChild k c).keyToChildNode.map Prod.fst = n.keyToChildNode.map Prod.fst := by
  unfold Node.setChild
  rw [if_pos hmem, keyToChildNode_mk]
  induction n.keyToChildNode with
  | nil => rfl
  | cons a t ih =>
    by_cases ha : a.1 = k <;> simp [ha, ih]

theorem setChild_keys_fresh (n : Node) (k : String) (c : Node)
    (hmem : n.keyToChildNode.any (fun e => decide (e.1 = k)) = false) :
    (n.setChild k c).keyToChildNode = n.keyToChildNode ++ [(k, c)] := by
  unfold Node.setChild
  rw [if_neg (by simp [hmem]), keyToChildNode_mk]

theorem find?_key_isNone_iff (l : List (String × Node)) (k : String) :
    (l.find? (fun e => decide (e.1 = k))).isNone ↔ k ∉ l.map Prod.fst := by
  constructor
  · intro h hmem
    rcases List.mem_map.mp hmem with ⟨x, hx, hfst⟩
    cases hf : l.find? (fun e => decide (e.1 = k)) with
    | some e => rw [hf] at h; cases h
    | none =>
      rw [List.find?_eq_none] at hf
      exact hf x hx (by simp [hfst])
  · intro h
    cases hf : l.find? (fun e => decide (e.1 = k)) with
    | none => rfl
    | some e =>
      have hek : e.1 = k := by simpa using List.find?_some hf
      have hmm : k ∈ l.map Prod.fst := by
        rw [← hek]
        exact List.mem_map_of_mem Prod.fst (List.mem_of_find?_eq_some hf)
      exact absurd hmm h

theorem length_map_fst (l : List (String × Node)) :
    (l.map Prod.fst).length = l.length := List.length_map l Prod.fst

theorem Bounded_setChild_mem (m : Nat) (p : String) (n : Node) (k : String) (child : Node)
    (hmem : n.keyToChildNode.any (fun e => decide (e.1 = k)) = true)
    (hb : Bounded m p n) (hc : Bounded m p child) : Bounded m p (n.setChild k child) := by
  have hkeys := setChild_keys_mem n k child hmem
  refine Bounded_intro m p _ ?_ ?_ ?_
  · have := congrArg List.length hkeys
    rw [length_map_fst, length_map_fst] at this
    rw [this]
    exact Bounded_length m p n hb
  · intro hw
    rw [find?_key_isNone_iff, hkeys, ← find?_key_isNone_iff] at hw
    have := congrArg List.length hkeys
    rw [length_map_fst, length_map_fst] at this
    rw [this]
    exact Bounded_nowild m p n hb hw
  · intro q hq
    rcases setChild_children_mem n k child q hq with h1 | h1
    · rw [h1]
      exact hc
    · exact Bounded_children m p n hb q h1

theorem Bounded_setChild_fresh (m : Nat) (p : String) (n : Node) (k : String) (child : Node)
    (hmem : n.keyToChildNode.any (fun e => decide (e.1 = k)) = false)
    (hb : Bounded m p n) (hc : Bounded m p child)
    (hlen : n.keyToChildNode.length + 1 ≤ m)
    (hwild : k = p ∨ (n.keyToChildNode.find? (fun e => decide (e.1 = p))).isSome ∨
      n.keyToChildNode.length + 1 + 1 ≤ m) :
    Bounded m p (n.setChild k child) := by
  have hkeys := setChild_keys_fresh n k child hmem
  refine Bounded_intro m p _ ?_ ?_ ?_
  · rw [hkeys]
    simpa using hlen
  · intro hw
    rw [find?_key_isNone_iff, hkeys, List.map_append] at hw
    simp only [List.map_cons, List.map_nil, List.mem_append, List.mem_singleton,
      not_or] at hw
    rcases hwild with h1 | h1 | h1
    · exact absurd h1.symm hw.2
    · exfalso
      have h2 : (n.keyToChildNode.find? (fun e => decide (e.1 = p))).isNone :=
        (find?_key_isNone_iff _ _).mpr hw.1
      rw [Option.isSome_iff_ne_none] at h1
      rw [Option.isNone_iff_eq_none] at h2
      exact h1 h2
    · rw [hkeys]
      simpa using h1
  · intro q hq
    rcases setChild_children_mem n k child q hq with h1 | h1
    · rw [h1]
      exact hc
    · exact Bounded_children m p n hb q h1

theorem lookupChild_none_find? (n : Node) (k : String) (h : n.lookupChild k = none) :
    n.keyToChildNode.find? (fun e => decide (e.1 = k)) = none := by
  unfold Node.lookupChild at h
  cases hf : n.keyToChildNode.find? (fun e => decide (e.1 = k)) with
  | none => rfl
  | some e => rw [hf] at h; cases h

theorem lookupChild_some_isSome (n : Node) (k : String) (c : Node)
    (h : n.lookupChild k = some c) :
    (n.keyToChildNode.find? (fun e => decide (e.1 = k))).isSome := by
  unfold Node.lookupChild at h
  cases hf : n.keyToChildNode.find? (fun e => decide (e.1 = k)) with
  | none => rw [hf] at h; cases h
  | some e => rfl

theorem addSeqLoop_bounded (config : Config) (clusterID tokenCount : Nat)
    (hmc : 1 ≤ config.MaxChildren) :
    ∀ (tokens : List String) (depth : Nat) (cur : Node) (store : LogClusterCache)
      (res : Node × LogClusterCache),
      addSeqLoop config clusterID tokenCount tokens depth cur store = .ok res →
      Bounded config.MaxChildren config.ParamString cur →
      Bounded config.MaxChildren config.ParamString res.1 := by
  intro tokens
  induction tokens with
  | nil =>
    intro depth cur store res h hb
    unfold addSeqLoop at h
    injection h with h
    subst h
    exact hb
  | cons t rest ih =>
    intro depth cur store res h hb
    unfold addSeqLoop at h
    by_cases hl : depth ≥ config.maxNodeDepth ∨ depth ≥ tokenCount
    · rw [if_pos hl] at h
      injection h with h
      subst h
      exact Bounded_setClusterIDs _ _ _ _ hb
    · rw [if_neg hl] at h
      unfold addSeqStep at h
      cases hc : cur.lookupChild t with
      | some child =>
        rw [hc] at h
        dsimp only at h
        cases hrec : addSeqLoop config clusterID tokenCount rest (depth + 1) child store with
        | error e => rw [hrec] at h; exact Except.noConfusion h
        | ok res' =>
          obtain ⟨child', store'⟩ := res'
          rw [hrec] at h
          injection h with h
          subst h
          exact Bounded_setChild_mem _ _ _ _ _ (lookupChild_any _ _ _ hc) hb
            (ih _ _ _ _ hrec
              (Bounded_children _ _ _ hb (t, child) (lookupChild_mem _ _ _ hc)))
      | none =>
        rw [hc] at h
        by_cases hd : hasNumbers t
        · rw [if_neg (by simpa using hd)] at h
          cases hw : cur.lookupChild config.ParamString with
          | none =>
            rw [hw] at h
            dsimp only at h
            cases hrec : addSeqLoop config clusterID tokenCount rest (depth + 1)
                createNode store with
            | error e => rw [hrec] at h; exact Except.noConfusion h
            | ok res' =>
              obtain ⟨child', store'⟩ := res'
              rw [hrec] at h
              injection h with h
              subst h
              refine Bounded_setChild_fresh _ _ _ _ _ (lookupChild_none_any _ _ hw) hb
                (ih _ _ _ _ hrec (Bounded_createNode _ _ hmc)) ?_ (Or.inl rfl)
              exact Bounded_nowild _ _ _ hb (by rw [lookupChild_none_find? _ _ hw]; rfl)
          | some wildcard =>
            rw [hw] at h
            dsimp only at h
            cases hrec : addSeqLoop config clusterID tokenCount rest (depth + 1)
                wildcard store with
            | error e => rw [hrec] at h; exact Except.noConfusion h
            | ok res' =>
              obtain ⟨child', store'⟩ := res'
              rw [hrec] at h
              injection h with h
              subst h
              exact Bounded_setChild_mem _ _ _ _ _ (lookupChild_any _ _ _ hw) hb
                (ih _ _ _ _ hrec
                  (Bounded_children _ _ _ hb (config.ParamString, wildcard)
                    (lookupChild_mem _ _ _ hw)))
        · rw [if_pos (by simpa using hd)] at h
          cases hw : cur.lookupChild config.ParamString with
          | some wildcard =>
            rw [hw] at h
            dsimp only at h
            by_cases hlen : cur.keyToChildNode.length < config.MaxChildren
            · rw [if_pos hlen] at h
              dsimp only at h
              cases hrec : addSeqLoop config clusterID tokenCount rest (depth + 1)
                  createNode store with
              | error e => rw [hrec] at h; exact Except.noConfusion h
              | ok res' =>
                obtain ⟨child', store'⟩ := res'
                rw [hrec] at h
                injection h with h
                subst h
                refine Bounded_setChild_fresh _ _ _ _ _ (lookupChild_none_any _ _ hc) hb
                  (ih _ _ _ _ hrec (Bounded_createNode _ _ hmc)) (by omega) ?_
                exact Or.inr (Or.inl (lookupChild_some_isSome _ _ _ hw))
            · rw [if_neg hlen] at h
              dsimp only at h
              cases hrec : addSeqLoop config clusterID tokenCount rest (depth + 1)
                  wildcard store with
              | error e => rw [hrec] at h; exact Except.noConfusion h
              | ok res' =>
                obtain ⟨child', store'⟩ := res'
                rw [hrec] at h
                injection h with h
                subst h
                exact Bounded_setChild_mem _ _ _ _ _ (lookupChild_any _ _ _ hw) hb
                  (ih _ _ _ _ hrec
                    (Bounded_children _ _ _ hb (config.ParamString, wildcard)
                      (lookupChild_mem _ _ _ hw)))
          | none =>
            rw [hw] at h
            dsimp only at h
            by_cases h1 : cur.keyToChildNode.length + 1 < config.MaxChildren
            · rw [if_pos h1] at h
              dsimp only at h
              cases hrec : addSeqLoop config clusterID tokenCount rest (depth + 1)
                  createNode store with
              | error e => rw [hrec] at h; exact Except.noConfusion h
              | ok res' =>
                obtain ⟨child', store'⟩ := res'
                rw [hrec] at h
                injection h with h
                subst h
                exact Bounded_setChild_fresh _ _ _ _ _ (lookupChild_none_any _ _ hc) hb
                  (ih _ _ _ _ hrec (Bounded_createNode _ _ hmc)) (by omega)
                  (Or.inr (Or.inr (by omega)))
            · rw [if_neg h1] at h
              by_cases h2 : cur.keyToChildNode.length + 1 = config.MaxChildren
              · rw [if_pos h2] at h
                dsimp only at h
                cases hrec : addSeqLoop config clusterID tokenCount rest (depth + 1)
                    createNode store with
                | error e => rw [hrec] at h; exact Except.noConfusion h
                | ok res' =>
                  obtain ⟨child', store'⟩ := res'
                  rw [hrec] at h
                  injection h with h
                  subst h
                  exact Bounded_setChild_fresh _ _ _ _ _ (lookupChild_none_any _ _ hw) hb
                    (ih _ _ _ _ hrec (Bounded_createNode _ _ hmc)) (by omega) (Or.inl rfl)
              · rw [if_neg h2] at h
                dsimp only at h
                cases rest with
                | nil =>
                  injection h with h
                  subst h
                  exact hb
                | cons r rs => exact Except.noConfusion h

theorem getSeqDistance_ok_of_len (config : Config) (seq1 seq2 : List String) (ip : Bool)
    (h : seq1.length = seq2.length) :
    ∃ r, getSeqDistance config seq1 seq2 ip = .ok r := by
  unfold getSeqDistance
  rw [if_neg (by omega)]
  exact ⟨_, rfl⟩

theorem getSeqDistance_len (config : Config) (seq1 seq2 : List String) (ip : Bool)
    (r : SimScore × Nat) (h : getSeqDistance config seq1 seq2 ip = .ok r) :
    seq1.length = seq2.length := by
  unfold getSeqDistance at h
  by_cases hl : seq1.length ≠ seq2.length
  · rw [if_pos hl] at h
    exact Except.noConfusion h
  · omega

theorem createTemplate_len (config : Config) (seq1 seq2 r : List String)
    (h : createTemplate config seq1 seq2 = .ok r) :
    r.length = seq2.length ∧ seq1.length = seq2.length := by
  unfold createTemplate at h
  by_cases hl : seq1.length ≠ seq2.length
  · rw [if_pos hl] at h
    exact Except.noConfusion h
  · rw [if_neg hl] at h
    injection h with h
    subst h
    refine ⟨?_, by omega⟩
    rw [List.length_zipWith]
    omega

theorem createTemplate_ok_of_len (config : Config) (seq1 seq2 : List String)
    (h : seq1.length = seq2.length) :
    ∃ r, createTemplate config seq1 seq2 = .ok r := by
  unfold createTemplate
  rw [if_neg (by omega)]
  exact ⟨_, rfl⟩

theorem zipWith_param_mono (P : String) : ∀ (seq1 seq2 : List String) (i : Nat),
    seq1.length = seq2.length → seq2.get? i = some P →
    (List.zipWith (fun t1 t2 => if t1 ≠ t2 then P else t2) seq1 seq2).get? i = some P := by
  intro seq1
  induction seq1 with
  | nil =>
    intro seq2 i hl hp
    cases seq2 with
    | nil => simp at hp
    | cons b s2 => simp at hl
  | cons a s1 ih =>
    intro seq2 i hl hp
    cases seq2 with
    | nil => simp at hl
    | cons b s2 =>
      cases i with
      | zero =>
        simp only [List.get?] at hp
        injection hp with hp
        subst hp
        simp only [List.zipWith, List.get?]
        by_cases hab : a = b <;> simp [hab]
      | succ j =>
        simp only [List.get?] at hp
        simp only [List.zipWith, List.get?]
        exact ih s2 j (by simpa using hl) hp

theorem createTemplate_param (config : Config) (seq1 seq2 r : List String) (i : Nat)
    (h : createTemplate config seq1 seq2 = .ok r)
    (hp : seq2.get? i = some config.ParamString) :
    r.get? i = some config.ParamString := by
  unfold createTemplate at h
  by_cases hl : seq1.length ≠ seq2.length
  · rw [if_pos hl] at h
    exact Except.noConfusion h
  · rw [if_neg hl] at h
    injection h with h
    subst h
    exact zipWith_param_mono _ seq1 seq2 i (by omega) hp

theorem fastMatchAux_store (config : Config) (tokens : List String) (ip : Bool) :
    ∀ (ids : List Nat) (store : LogClusterCache) (maxSim : SimScore) (maxPC : Int)
      (maxCl : Option LogCluster) (r : Option LogCluster × SimScore × LogClusterCache),
      fastMatchAux config tokens ip ids store maxSim maxPC maxCl = .ok r →
      (∀ j, r.2.2.find? j = store.find? j) ∧ r.2.2.maxSize = store.maxSize ∧
        (cacheWF store → cacheWF r.2.2) := by
  intro ids
  induction ids with
  | nil =>
    intro store maxSim maxPC maxCl r h
    unfold fastMatchAux at h
    injection h with h
    subst h
    exact ⟨fun j => rfl, rfl, id⟩
  | cons i rest ih =>
    intro store maxSim maxPC maxCl r h
    unfold fastMatchAux at h
    cases hg : LogClusterCache.Get store i with
    | mk rc s' =>
      have hsf : ∀ j, s'.find? j = store.find? j := by
        intro j
        have := Get_find? store i j
        rw [hg] at this
        exact this
      have hms : s'.maxSize = store.maxSize := by
        have := Get_maxSize store i
        rw [hg] at this
        exact this
      have hwf : cacheWF store → cacheWF s' := by
        intro hw
        have := Get_wf store i hw
        rw [hg] at this
        exact this
      cases rc with
      | none =>
        rw [hg] at h
        dsimp only at h
        rcases ih s' maxSim maxPC maxCl r h with ⟨h1, h2, h3⟩
        exact ⟨fun j => (h1 j).trans (hsf j), h2.trans hms, fun hw => h3 (hwf hw)⟩
      | some cluster =>
        rw [hg] at h
        dsimp only at h
        cases hd : getSeqDistance config cluster.logTemplateTokens tokens ip with
        | error e => rw [hd] at h; exact Except.noConfusion h
        | ok sp =>
          obtain ⟨curSim, paramCount⟩ := sp
          rw [hd] at h
          dsimp only at h
          by_cases hcond : curSim.gt maxSim = true ∨
              (curSim.feq maxSim = true ∧ (paramCount : Int) > maxPC)
          · rw [if_pos hcond] at h
            rcases ih s' curSim paramCount (some cluster) r h with ⟨h1, h2, h3⟩
            exact ⟨fun j => (h1 j).trans (hsf j), h2.trans hms, fun hw => h3 (hwf hw)⟩
          · rw [if_neg hcond] at h
            rcases ih s' maxSim maxPC maxCl r h with ⟨h1, h2, h3⟩
            exact ⟨fun j => (h1 j).trans (hsf j), h2.trans hms, fun hw => h3 (hwf hw)⟩

theorem fastMatchAux_result (config : Config) (tokens : List String) (ip : Bool) :
    ∀ (ids : List Nat) (store : LogClusterCache) (maxSim : SimScore) (maxPC : Int)
      (maxCl : Option LogCluster) (r : Option LogCluster × SimScore × LogClusterCache),
      fastMatchAux config tokens ip ids store maxSim maxPC maxCl = .ok r →
      r.1 = maxCl ∨ ∃ id ∈ ids, ∃ cl, store.find? id = some cl ∧ r.1 = some cl := by
  intro ids
  induction ids with
  | nil =>
    intro store maxSim maxPC maxCl r h
    unfold fastMatchAux at h
    injection h with h
    subst h
    exact Or.inl rfl
  | cons i rest ih =>
    intro store maxSim maxPC maxCl r h
    unfold fastMatchAux at h
    cases hg : LogClusterCache.Get store i with
    | mk rc s' =>
      have hsf : ∀ j, s'.find? j = store.find? j := by
        intro j
        have := Get_find? store i j
        rw [hg] at this
        exact this
      have hfst : store.find? i = rc := by
        have := Get_fst store i
        rw [hg] at this
        exact this.symm
      cases rc with
      | none =>
        rw [hg] at h
        dsimp only at h
        rcases ih s' maxSim maxPC maxCl r h with h1 | ⟨id, hmem, cl, hcl, hr⟩
        · exact Or.inl h1
        · exact Or.inr ⟨id, List.mem_cons_of_mem i hmem, cl, (hsf id ▸ hcl), hr⟩
      | some cluster =>
        rw [hg] at h
        dsimp only at h
        cases hd : getSeqDistance config cluster.logTemplateTokens tokens ip with
        | error e => rw [hd] at h; exact Except.noConfusion h
        | ok sp =>
          obtain ⟨curSim, paramCount⟩ := sp
          rw [hd] at h
          dsimp only at h
          by_cases hcond : curSim.gt maxSim = true ∨
              (curSim.feq maxSim = true ∧ (paramCount : Int) > maxPC)
          · rw [if_pos hcond] at h
            rcases ih s' curSim paramCount (some cluster) r h with h1 | ⟨id, hmem, cl, hcl, hr⟩
            · exact Or.inr ⟨i, List.mem_cons_self i rest, cluster, hfst, h1⟩
            · exact Or.inr ⟨id, List.mem_cons_of_mem i hmem, cl, (hsf id ▸ hcl), hr⟩
          · rw [if_neg hcond] at h
            rcases ih s' maxSim maxPC maxCl r h with h1 | ⟨id, hmem, cl, hcl, hr⟩
            · exact Or.inl h1
            · exact Or.inr ⟨id, List.mem_cons_of_mem i hmem, cl, (hsf id ▸ hcl), hr⟩

theorem fastMatchAux_ok (config : Config) (tokens : List String) (ip : Bool) :
    ∀ (ids : List Nat) (store : LogClusterCache) (maxSim : SimScore) (maxPC : Int)
      (maxCl : Option LogCluster),
      (∀ id ∈ ids, ∀ cl, store.find? id = some cl →
        cl.logTemplateTokens.length = tokens.length) →
      ∃ r, fastMatchAux config tokens ip ids store maxSim maxPC maxCl = .ok r := by
  intro ids
  induction ids with
  | nil =>
    intro store maxSim maxPC maxCl hlen
    exact ⟨_, rfl⟩
  | cons i rest ih =>
    intro store maxSim maxPC maxCl hlen
    unfold fastMatchAux
    cases hg : LogClusterCache.Get store i with
    | mk rc s' =>
      have hsf : ∀ j, s'.find? j = store.find? j := by
        intro j
        have := Get_find? store i j
        rw [hg] at this
        exact this
      have hfst : store.find? i = rc := by
        have := Get_fst store i
        rw [hg] at this
        exact this.symm
      have hlen' : ∀ id ∈ rest, ∀ cl, s'.find? id = some cl →
          cl.logTemplateTokens.length = tokens.length := by
        intro id hmem cl hcl
        rw [hsf id] at hcl
        exact hlen id (List.mem_cons_of_mem i hmem) cl hcl
      cases rc with
      | none => exact ih s' maxSim maxPC maxCl hlen'
      | some cluster =>
        have hlc : cluster.logTemplateTokens.length = tokens.length :=
          hlen i (List.mem_cons_self i rest) cluster hfst
        rcases getSeqDistance_ok_of_len config cluster.logTemplateTokens tokens ip hlc with
          ⟨sp, hsp⟩
        dsimp only
        rw [hsp]
        obtain ⟨curSim, paramCount⟩ := sp
        dsimp only
        by_cases hcond : curSim.gt maxSim = true ∨
            (curSim.feq maxSim = true ∧ (paramCount : Int) > maxPC)
        · rw [if_pos hcond]
          exact ih s' curSim paramCount (some cluster) hlen'
        · rw [if_neg hcond]
          exact ih s' maxSim maxPC maxCl hlen'

theorem fastMatch_store (config : Config) (store : LogClusterCache)
    (clusterIDs : List Nat) (tokens : List String) (simTh : SimScore) (ip : Bool)
    (rs : Option LogCluster × LogClusterCache)
    (h : fastMatch config store clusterIDs tokens simTh ip = .ok rs) :
    (∀ j, rs.2.find? j = store.find? j) ∧ rs.2.maxSize = store.maxSize ∧
      (cacheWF store → cacheWF rs.2) := by
  unfold fastMatch at h
  cases hfa : fastMatchAux config tokens ip clusterIDs store
      { num := -1, den := 1 } (-1) none with
  | error e => rw [hfa] at h; exact Except.noConfusion h
  | ok r =>
    obtain ⟨maxCluster, maxSim, store'⟩ := r
    rw [hfa] at h
    dsimp only at h
    injection h with h
    subst h
    rcases fastMatchAux_store config tokens ip clusterIDs store _ _ _ _ hfa with ⟨h1, h2, h3⟩
    exact ⟨h1, h2, h3⟩

theorem fastMatch_result (config : Config) (store : LogClusterCache)
    (clusterIDs : List Nat) (tokens : List String) (simTh : SimScore) (ip : Bool)
    (rs : Option LogCluster × LogClusterCache)
    (h : fastMatch config store clusterIDs tokens simTh ip = .ok rs) :
    rs.1 = none ∨ ∃ id ∈ clusterIDs, ∃ cl, store.find? id = some cl ∧ rs.1 = some cl := by
  unfold fastMatch at h
  cases hfa : fastMatchAux config tokens ip clusterIDs store
      { num := -1, den := 1 } (-1) none with
  | error e => rw [hfa] at h; exact Except.noConfusion h
  | ok r =>
    obtain ⟨maxCluster, maxSim, store'⟩ := r
    rw [hfa] at h
    dsimp only at h
    injection h with h
    subst h
    rcases fastMatchAux_result config tokens ip clusterIDs store _ _ _ _ hfa with
      h1 | ⟨id, hmem, cl, hcl, hr⟩
    · dsimp only at h1
      rw [h1]
      left
      split <;> rfl
    · dsimp only at hr
      rw [hr]
      by_cases hge : maxSim.ge simTh = true
      · rw [if_pos hge]
        exact Or.inr ⟨id, hmem, cl, hcl, rfl⟩
      · rw [if_neg hge]
        exact Or.inl rfl

theorem fastMatch_ok (config : Config) (store : LogClusterCache)
    (clusterIDs : List Nat) (tokens : List String) (simTh : SimScore) (ip : Bool)
    (hlen : ∀ id ∈ clusterIDs, ∀ cl, store.find? id = some cl →
      cl.logTemplateTokens.length = tokens.length) :
    ∃ rs, fastMatch config store clusterIDs tokens simTh ip = .ok rs := by
  rcases fastMatchAux_ok config tokens ip clusterIDs store
      { num := -1, den := 1 } (-1) none hlen with ⟨r, hr⟩
  unfold fastMatch
  rw [hr]
  obtain ⟨maxCluster, maxSim, store'⟩ := r
  exact ⟨_, rfl⟩

theorem treeSearch_store (config : Config) (store : LogClusterCache) (root : Node)
    (tokens : List String) (simTh : SimScore) (ip : Bool)
    (rs : Option LogCluster × LogClusterCache)
    (h : treeSearch config store root tokens simTh ip = .ok rs) :
    (∀ j, rs.2.find? j = store.find? j) ∧ rs.2.maxSize = store.maxSize ∧
      (cacheWF store → cacheWF rs.2) := by
  unfold treeSearch at h
  dsimp only at h
  cases hbk : root.lookupChild (itoa tokens.length) with
  | none =>
    rw [hbk] at h
    injection h with h
    subst h
    exact ⟨fun j => rfl, rfl, id⟩
  | some curNode =>
    rw [hbk] at h
    dsimp only at h
    by_cases h0 : tokens.length = 0
    · rw [if_pos h0] at h
      cases hids : curNode.clusterIDs with
      | nil => rw [hids] at h; exact Except.noConfusion h
      | cons cid restIds =>
        rw [hids] at h
        dsimp only at h
        injection h with h
        subst h
        exact ⟨fun j => Get_find? store cid j, Get_maxSize store cid, Get_wf store cid⟩
    · rw [if_neg h0] at h
      cases hloop : treeSearchLoop config tokens.length tokens 1 curNode with
      | none =>
        rw [hloop] at h
        injection h with h
        subst h
        exact ⟨fun j => rfl, rfl, id⟩
      | some leaf =>
        rw [hloop] at h
        exact fastMatch_store config store leaf.clusterIDs tokens simTh ip rs h

theorem treeSearch_result (config : Config) (store : LogClusterCache) (root : Node)
    (tokens : List String) (simTh : SimScore) (ip : Bool)
    (rs : Option LogCluster × LogClusterCache)
    (h : treeSearch config store root tokens simTh ip = .ok rs) :
    rs.1 = none ∨ ∃ p ∈ root.keyToChildNode, p.1 = itoa tokens.length ∧
      ∃ node, Reachable p.2 node ∧ ∃ id ∈ node.clusterIDs, ∃ cl,
        store.find? id = some cl ∧ rs.1 = some cl := by
  unfold treeSearch at h
  dsimp only at h
  cases hbk : root.lookupChild (itoa tokens.length) with
  | none =>
    rw [hbk] at h
    injection h with h
    subst h
    exact Or.inl rfl
  | some curNode =>
    rw [hbk] at h
    dsimp only at h
    by_cases h0 : tokens.length = 0
    · rw [if_pos h0] at h
      cases hids : curNode.clusterIDs with
      | nil => rw [hids] at h; exact Except.noConfusion h
      | cons cid restIds =>
        rw [hids] at h
        dsimp only at h
        injection h with h
        subst h
        cases hg : store.find? cid with
        | none =>
          left
          have := Get_fst store cid
          rw [hg] at this
          exact this
        | some cl =>
          right
          refine ⟨(itoa tokens.length, curNode), lookupChild_mem _ _ _ hbk, rfl,
            curNode, Reachable.refl _, cid, ?_, cl, hg, ?_⟩
          · rw [hids]
            exact List.mem_cons_self cid restIds
          · have := Get_fst store cid
            rw [hg] at this
            exact this
    · rw [if_neg h0] at h
      cases hloop : treeSearchLoop config tokens.length tokens 1 curNode with
      | none =>
        rw [hloop] at h
        injection h with h
        subst h
        exact Or.inl rfl
      | some leaf =>
        rw [hloop] at h
        rcases fastMatch_result config store leaf.clusterIDs tokens simTh ip rs h with
          h1 | ⟨id, hmem, cl, hcl, hr⟩
        · exact Or.inl h1
        · exact Or.inr ⟨(itoa tokens.length, curNode), lookupChild_mem _ _ _ hbk, rfl,
            leaf, treeSearchLoop_reachable config tokens.length tokens 1 curNode leaf hloop,
            id, hmem, cl, hcl, hr⟩

theorem treeSearch_no_mismatch (config : Config) (store : LogClusterCache) (root : Node)
    (tokens : List String) (simTh : SimScore) (ip : Bool)
    (hne : tokens.length ≠ 0)
    (hlen : ∀ p ∈ root.keyToChildNode, p.1 = itoa tokens.length →
      ∀ n, Reachable p.2 n → ∀ id ∈ n.clusterIDs, ∀ cl, store.find? id = some cl →
        cl.logTemplateTokens.length = tokens.length) :
    ∃ rs, treeSearch config store root tokens simTh ip = .ok rs := by
  unfold treeSearch
  dsimp only
  cases hbk : root.lookupChild (itoa tokens.length) with
  | none => exact ⟨_, rfl⟩
  | some curNode =>
    dsimp only
    rw [if_neg hne]
    cases hloop : treeSearchLoop config tokens.length tokens 1 curNode with
    | none => exact ⟨_, rfl⟩
    | some leaf =>
      apply fastMatch_ok
      intro id hmem cl hcl
      exact hlen (itoa tokens.length, curNode) (lookupChild_mem _ _ _ hbk) rfl leaf
        (treeSearchLoop_reachable config tokens.length tokens 1 curNode leaf hloop)
        id hmem cl hcl

theorem addSeq_store (config : Config) (store : LogClusterCache) (rootNode : Node)
    (cluster : LogCluster) (res : Node × LogClusterCache)
    (h : addSeqToPrefixTree config store rootNode cluster = .ok res) :
    (∀ j, res.2.find? j = store.find? j) ∧ res.2.maxSize = store.maxSize ∧
      (cacheWF store → cacheWF res.2) := by
  unfold addSeqToPrefixTree at h
  dsimp only at h
  by_cases h0 : cluster.logTemplateTokens.length = 0
  · rw [if_pos h0] at h
    injection h with h
    subst h
    exact ⟨fun j => rfl, rfl, id⟩
  · rw [if_neg h0] at h
    cases hfl : rootNode.lookupChild (itoa cluster.logTemplateTokens.length) with
    | some n =>
      rw [hfl] at h
      dsimp only at h
      cases hloop : addSeqLoop config cluster.id cluster.logTemplateTokens.length
          cluster.logTemplateTokens 1 n store with
      | error e => rw [hloop] at h; exact Except.noConfusion h
      | ok res' =>
        obtain ⟨first', store'⟩ := res'
        rw [hloop] at h
        injection h with h
        subst h
        exact addSeqLoop_store config cluster.id cluster.logTemplateTokens.length
          cluster.logTemplateTokens 1 n store (first', store') hloop
    | none =>
      rw [hfl] at h
      dsimp only at h
      cases hloop : addSeqLoop config cluster.id cluster.logTemplateTokens.length
          cluster.logTemplateTokens 1 createNode store with
      | error e => rw [hloop] at h; exact Except.noConfusion h
      | ok res' =>
        obtain ⟨first', store'⟩ := res'
        rw [hloop] at h
        injection h with h
        subst h
        exact addSeqLoop_store config cluster.id cluster.logTemplateTokens.length
          cluster.logTemplateTokens 1 createNode store (first', store') hloop

theorem addSeq_ids (config : Config) (store : LogClusterCache) (rootNode : Node)
    (cluster : LogCluster) (res : Node × LogClusterCache)
    (h : addSeqToPrefixTree config store rootNode cluster = .ok res) :
    ∀ p' ∈ res.1.keyToChildNode, ∀ n, Reachable p'.2 n → ∀ id ∈ n.clusterIDs,
      (id = cluster.id ∧ p'.1 = itoa cluster.logTemplateTokens.length) ∨
      (∃ p ∈ rootNode.keyToChildNode, p.1 = p'.1 ∧
        ∃ m, Reachable p.2 m ∧ id ∈ m.clusterIDs) := by
  unfold addSeqToPrefixTree at h
  dsimp only at h
  by_cases h0 : cluster.logTemplateTokens.length = 0
  · rw [if_pos h0] at h
    injection h with h
    subst h
    intro p' hp' n hn id hid
    rcases setChild_children_mem _ _ _ _ hp' with h1 | h1
    · subst h1
      dsimp only at hn hid ⊢
      cases hfl : rootNode.lookupChild (itoa cluster.logTemplateTokens.length) with
      | some fl =>
        rw [hfl] at hn
        rcases reachable_setClusterIDs _ _ _ hn with h2 | ⟨q, hq, hr⟩
        · rw [h2, setClusterIDs_ids] at hid
          rcases List.mem_append.mp hid with hm | hm
          · exact Or.inr ⟨(itoa cluster.logTemplateTokens.length, fl),
              lookupChild_mem _ _ _ hfl, rfl, fl, Reachable.refl _, hm⟩
          · exact Or.inl ⟨List.mem_singleton.mp hm, rfl⟩
        · exact Or.inr ⟨(itoa cluster.logTemplateTokens.length, fl),
            lookupChild_mem _ _ _ hfl, rfl, n, Reachable.step q hq hr, hid⟩
      | none =>
        rw [hfl] at hn
        dsimp only at hn
        rcases reachable_setClusterIDs _ _ _ hn with h2 | ⟨q, hq, hr⟩
        · rw [h2, setClusterIDs_ids] at hid
          rcases List.mem_append.mp hid with hm | hm
          · unfold createNode at hm
            rw [clusterIDs_mk] at hm
            cases hm
          · exact Or.inl ⟨List.mem_singleton.mp hm, rfl⟩
        · unfold createNode at hq
          rw [keyToChildNode_mk] at hq
          cases hq
    · exact Or.inr ⟨p', h1, rfl, n, hn, hid⟩
  · rw [if_neg h0] at h
    cases hfl : rootNode.lookupChild (itoa cluster.logTemplateTokens.length) with
    | some fl =>
      rw [hfl] at h
      dsimp only at h
      cases hloop : addSeqLoop config cluster.id cluster.logTemplateTokens.length
          cluster.logTemplateTokens 1 fl store with
      | error e => rw [hloop] at h; exact Except.noConfusion h
      | ok res' =>
        obtain ⟨first', store'⟩ := res'
        rw [hloop] at h
        injection h with h
        subst h
        intro p' hp' n hn id hid
        rcases setChild_children_mem _ _ _ _ hp' with h1 | h1
        · subst h1
          dsimp only at hn ⊢
          rcases addSeqLoop_ids config cluster.id cluster.logTemplateTokens.length
              cluster.logTemplateTokens 1 fl store (first', store') hloop n hn id hid with
            h2 | ⟨m, hm, hmid⟩
          · exact Or.inl ⟨h2, rfl⟩
          · exact Or.inr ⟨(itoa cluster.logTemplateTokens.length, fl),
              lookupChild_mem _ _ _ hfl, rfl, m, hm, hmid⟩
        · exact Or.inr ⟨p', h1, rfl, n, hn, hid⟩
    | none =>
      rw [hfl] at h
      dsimp only at h
      cases hloop : addSeqLoop config cluster.id cluster.logTemplateTokens.length
          cluster.logTemplateTokens 1 createNode store with
      | error e => rw [hloop] at h; exact Except.noConfusion h
      | ok res' =>
        obtain ⟨first', store'⟩ := res'
        rw [hloop] at h
        injection h with h
        subst h
        intro p' hp' n hn id hid
        rcases setChild_children_mem _ _ _ _ hp' with h1 | h1
        · subst h1
          dsimp only at hn ⊢
          rcases addSeqLoop_ids config cluster.id cluster.logTemplateTokens.length
              cluster.logTemplateTokens 1 createNode store (first', store') hloop n hn id hid with
            h2 | ⟨m, hm, hmid⟩
          · exact Or.inl ⟨h2, rfl⟩
          · have := reachable_createNode m hm
            rw [this] at hmid
            unfold createNode at hmid
            rw [clusterIDs_mk] at hmid
            cases hmid
        · exact Or.inr ⟨p', h1, rfl, n, hn, hid⟩

theorem addSeq_bounded (config : Config) (store : LogClusterCache) (rootNode : Node)
    (cluster : LogCluster) (res : Node × LogClusterCache)
    (hmc : 1 ≤ config.MaxChildren)
    (h : addSeqToPrefixTree config store rootNode cluster = .ok res)
    (hb : ∀ p ∈ rootNode.keyToChildNode, Bounded config.MaxChildren config.ParamString p.2) :
    ∀ p' ∈ res.1.keyToChildNode, Bounded config.MaxChildren config.ParamString p'.2 := by
  unfold addSeqToPrefixTree at h
  dsimp only at h
  by_cases h0 : cluster.logTemplateTokens.length = 0
  · rw [if_pos h0] at h
    injection h with h
    subst h
    intro p' hp'
    rcases setChild_children_mem _ _ _ _ hp' with h1 | h1
    · subst h1
      dsimp only
      cases hfl : rootNode.lookupChild (itoa cluster.logTemplateTokens.length) with
      | some fl =>
        exact Bounded_setClusterIDs _ _ _ _ (hb _ (lookupChild_mem _ _ _ hfl))
      | none =>
        exact Bounded_setClusterIDs _ _ _ _ (Bounded_createNode _ _ hmc)
    · exact hb p' h1
  · rw [if_neg h0] at h
    cases hfl : rootNode.lookupChild (itoa cluster.logTemplateTokens.length) with
    | some fl =>
      rw [hfl] at h
      dsimp only at h
      cases hloop : addSeqLoop config cluster.id cluster.logTemplateTokens.length
          cluster.logTemplateTokens 1 fl store with
      | error e => rw [hloop] at h; exact Except.noConfusion h
      | ok res' =>
        obtain ⟨first', store'⟩ := res'
        rw [hloop] at h
        injection h with h
        subst h
        intro p' hp'
        rcases setChild_children_mem _ _ _ _ hp' with h1 | h1
        · subst h1
          exact addSeqLoop_bounded config cluster.id cluster.logTemplateTokens.length hmc
            cluster.logTemplateTokens 1 fl store (first', store') hloop
            (hb _ (lookupChild_mem _ _ _ hfl))
        · exact hb p' h1
    | none =>
      rw [hfl] at h
      dsimp only at h
      cases hloop : addSeqLoop config cluster.id cluster.logTemplateTokens.length
          cluster.logTemplateTokens 1 createNode store with
      | error e => rw [hloop] at h; exact Except.noConfusion h
      | ok res' =>
        obtain ⟨first', store'⟩ := res'
        rw [hloop] at h
        injection h with h
        subst h
        intro p' hp'
        rcases setChild_children_mem _ _ _ _ hp' with h1 | h1
        · subst h1
          exact addSeqLoop_bounded config cluster.id cluster.logTemplateTokens.length hmc
            cluster.logTemplateTokens 1 createNode store (first', store') hloop
            (Bounded_createNode _ _ hmc)
        · exact hb p' h1

theorem Log_spec (d : Drain) (content : String) (d' : Drain) (cl : LogCluster)
    (h : Log d content = .ok (d', cl)) :
    d'.config = d.config ∧
    ((∃ store1 res,
        treeSearch d.config d.idToCluster d.rootNode
          (getContentAsTokens d.config content) d.config.SimTh false =
            .ok (none, store1) ∧
        addSeqToPrefixTree d.config
          (store1.Set (d.clustersCounter + 1)
            { logTemplateTokens := getContentAsTokens d.config content
              id := d.clustersCounter + 1, size := 1 })
          d.rootNode
          { logTemplateTokens := getContentAsTokens d.config content
            id := d.clustersCounter + 1, size := 1 } = .ok res ∧
        d'.rootNode = res.1 ∧ d'.idToCluster = res.2 ∧
        d'.clustersCounter = d.clustersCounter + 1 ∧
        cl = { logTemplateTokens := getContentAsTokens d.config content
               id := d.clustersCounter + 1, size := 1 }) ∨
     (∃ store1 mc newTemplate,
        treeSearch d.config d.idToCluster d.rootNode
          (getContentAsTokens d.config content) d.config.SimTh false =
            .ok (some mc, store1) ∧
        createTemplate d.config (getContentAsTokens d.config content)
          mc.logTemplateTokens = .ok newTemplate ∧
        cl = { mc with logTemplateTokens := newTemplate, size := mc.size + 1 } ∧
        d'.rootNode = d.rootNode ∧ d'.clustersCounter = d.clustersCounter ∧
        d'.idToCluster = ((store1.update mc.id cl).Get mc.id).2)) := by
  unfold Log at h
  dsimp only at h
  cases hts : treeSearch d.config d.idToCluster d.rootNode
      (getContentAsTokens d.config content) d.config.SimTh false with
  | error e => rw [hts] at h; exact Except.noConfusion h
  | ok rs =>
    obtain ⟨mcOpt, store1⟩ := rs
    cases mcOpt with
    | none =>
      rw [hts] at h
      dsimp only at h
      cases hadd : addSeqToPrefixTree d.config
          (store1.Set (d.clustersCounter + 1)
            { logTemplateTokens := getContentAsTokens d.config content
              id := d.clustersCounter + 1, size := 1 })
          d.rootNode
          { logTemplateTokens := getContentAsTokens d.config content
            id := d.clustersCounter + 1, size := 1 } with
      | error e => rw [hadd] at h; exact Except.noConfusion h
      | ok res =>
        obtain ⟨root', store3⟩ := res
        rw [hadd] at h
        dsimp only at h
        injection h with h
        injection h with hd hcl
        subst hd
        subst hcl
        refine ⟨rfl, Or.inl ⟨store1, (root', store3), rfl, hadd, rfl, rfl, rfl, rfl⟩⟩
    | some mc =>
      rw [hts] at h
      dsimp only at h
      cases hct : createTemplate d.config (getContentAsTokens d.config content)
          mc.logTemplateTokens with
      | error e => rw [hct] at h; exact Except.noConfusion h
      | ok newTemplate =>
        rw [hct] at h
        dsimp only at h
        injection h with h
        injection h with hd hcl
        subst hd
        subst hcl
        exact ⟨rfl, Or.inr ⟨store1, mc, newTemplate, rfl, hct, rfl, rfl, rfl, rfl⟩⟩

theorem New_spec (config : Config) (d0 : Drain) (h : New config = some d0) :
    d0.config = { config with maxNodeDepth := config.LogClusterDepth - 2 } ∧
    d0.rootNode = createNode ∧
    d0.idToCluster = createLogClusterCache config.MaxClusters ∧
    d0.clustersCounter = 0 := by
  unfold New at h
  by_cases hd : config.LogClusterDepth < 3
  · rw [if_pos hd] at h
    exact Option.noConfusion h
  · rw [if_neg hd] at h
    dsimp only at h
    injection h with h
    subst h
    exact ⟨rfl, rfl, rfl, rfl⟩

theorem DrainWF_New (config : Config) (d0 : Drain) (h : New config = some d0) :
    DrainWF d0 := by
  rcases New_spec config d0 h with ⟨hc, hr, hs, hn⟩
  refine ⟨?_, ?_, ?_, ?_, ?_⟩
  · rw [hs]
    unfold cacheWF createLogClusterCache
    simp
  · intro id c hc2
    rw [hs] at hc2
    unfold LogClusterCache.find? createLogClusterCache at hc2
    simp at hc2
  · intro id c hc2
    rw [hs] at hc2
    unfold LogClusterCache.find? createLogClusterCache at hc2
    simp at hc2
  · intro p hp
    rw [hr] at hp
    unfold createNode at hp
    rw [keyToChildNode_mk] at hp
    cases hp
  · intro p hp
    rw [hr] at hp
    unfold createNode at hp
    rw [keyToChildNode_mk] at hp
    cases hp

theorem TreeBounded_New (config : Config) (d0 : Drain) (h : New config = some d0) :
    TreeBounded d0 := by
  rcases New_spec config d0 h with ⟨hc, hr, hs, hn⟩
  intro p hp
  rw [hr] at hp
  unfold createNode at hp
  rw [keyToChildNode_mk] at hp
  cases hp

theorem Log_counter (d : Drain) (content : String) (d' : Drain) (cl : LogCluster)
    (h : Log d content = .ok (d', cl)) :
    (d'.clustersCounter = d.clustersCounter ∧ d'.rootNode = d.rootNode) ∨
    (d'.clustersCounter = d.clustersCounter + 1 ∧ cl.id = d'.clustersCounter) := by
  rcases Log_spec d content d' cl h with ⟨hcfg, hbr⟩
  rcases hbr with ⟨store1, res, hts, hadd, hroot, hstore, hcnt, hcl⟩ |
    ⟨store1, mc, newT, hts, hct, hcl, hroot, hcnt, hstore⟩
  · right
    rw [hcnt, hcl]
    exact ⟨rfl, rfl⟩
  · left
    exact ⟨hcnt, hroot⟩

theorem Log_TreeBounded (d : Drain) (content : String) (d' : Drain) (cl : LogCluster)
    (h : Log d content = .ok (d', cl)) (hmc : 1 ≤ d.config.MaxChildren)
    (hb : TreeBounded d) : TreeBounded d' := by
  rcases Log_spec d content d' cl h with ⟨hcfg, hbr⟩
  rcases hbr with ⟨store1, res, hts, hadd, hroot, hstore, hcnt, hcl⟩ |
    ⟨store1, mc, newT, hts, hct, hcl, hroot, hcnt, hstore⟩
  · intro p hp
    rw [hcfg]
    rw [hroot] at hp
    exact addSeq_bounded _ _ _ _ _ hmc hadd hb p hp
  · intro p hp
    rw [hcfg]
    rw [hroot] at hp
    exact hb p hp

theorem Log_WF (d : Drain) (content : String) (d' : Drain) (cl : LogCluster)
    (h : Log d content = .ok (d', cl)) (hwf : DrainWF d) : DrainWF d' := by
  rcases Log_spec d content d' cl h with ⟨hcfg, hbr⟩
  rcases hbr with ⟨store1, res, hts, hadd, hroot, hstore, hcnt, hcl⟩ |
    ⟨store1, mc, newT, hts, hct, hcl, hroot, hcnt, hstore⟩
  · -- create branch
    rcases treeSearch_store _ _ _ _ _ _ _ hts with ⟨hs1f, hs1m, hs1w⟩
    dsimp only at hs1f hs1m hs1w
    rcases addSeq_store _ _ _ _ _ hadd with ⟨haf, ham, haw⟩
    have hs1wf : cacheWF store1 := hs1w hwf.wf
    have hDf : ∀ j, d'.idToCluster.find? j =
        (store1.Set (d.clustersCounter + 1)
          { logTemplateTokens := getContentAsTokens d.config content
            id := d.clustersCounter + 1, size := 1 }).find? j := by
      intro j
      rw [hstore]
      exact haf j
    refine ⟨?_, ?_, ?_, ?_, ?_⟩
    · rw [hstore]
      exact haw (Set_wf _ _ _ hs1wf)
    · intro id c hc2
      rw [hDf id] at hc2
      rcases Set_find?_some _ _ _ _ _ hs1wf hc2 with ⟨hid, hcv⟩ | hold
      · rw [hcv, hid]
      · rw [hs1f id] at hold
        exact hwf.idCoherent id c hold
    · intro id c hc2
      rw [hDf id] at hc2
      rw [hcnt]
      rcases Set_find?_some _ _ _ _ _ hs1wf hc2 with ⟨hid, hcv⟩ | hold
      · omega
      · rw [hs1f id] at hold
        have := hwf.storeIdsLe id c hold
        omega
    · intro p' hp' n hn id hid
      rw [hroot] at hp'
      rw [hcnt]
      rcases addSeq_ids _ _ _ _ _ hadd p' hp' n hn id hid with ⟨hid', _⟩ | ⟨p, hp, _, m, hm, hmid⟩
      · dsimp only at hid'
        omega
      · have := hwf.treeIdsLe p hp m hm id hmid
        omega
    · intro p' hp' n hn id hid c hc2
      rw [hroot] at hp'
      rw [hDf id] at hc2
      rcases addSeq_ids _ _ _ _ _ hadd p' hp' n hn id hid with ⟨hid', hp1⟩ | ⟨p, hp, hpeq, m, hm, hmid⟩
      · dsimp only at hid' hp1
        subst hid'
        rcases Set_find?_some _ _ _ _ _ hs1wf hc2 with ⟨_, hcv⟩ | hold
        · rw [hcv, hp1]
        · rw [hs1f _] at hold
          have := hwf.storeIdsLe _ c hold
          omega
      · have hle := hwf.treeIdsLe p hp m hm id hmid
        rcases Set_find?_some _ _ _ _ _ hs1wf hc2 with ⟨hid2, _⟩ | hold
        · omega
        · rw [hs1f id] at hold
          rw [← hpeq]
          exact hwf.lenOK p hp m hm id hmid c hold
  · -- match branch
    rcases treeSearch_store _ _ _ _ _ _ _ hts with ⟨hs1f, hs1m, hs1w⟩
    dsimp only at hs1f hs1m hs1w
    have hs1wf : cacheWF store1 := hs1w hwf.wf
    rcases treeSearch_result _ _ _ _ _ _ _ hts with h1 | ⟨p, hp, hp1, node, hnode, id0, hid0, cl0, hfind0, hr⟩
    · dsimp only at h1
      exact Option.noConfusion h1
    · dsimp only at hr
      injection hr with hr
      subst hr
      have hmcid : mc.id = id0 := hwf.idCoherent id0 mc hfind0
      have hfd : d.idToCluster.find? mc.id = some mc := by
        rw [hmcid]
        exact hfind0
      have hcllen : cl.logTemplateTokens.length = mc.logTemplateTokens.length := by
        rw [hcl]
        exact (createTemplate_len _ _ _ _ hct).1
      have hclid : cl.id = mc.id := by
        rw [hcl]
      have hD : ∀ j, d'.idToCluster.find? j =
          if j = mc.id then some cl else d.idToCluster.find? j := by
        intro j
        rw [hstore, Get_find?]
        by_cases hj : j = mc.id
        · subst hj
          rw [if_pos rfl, update_find?_eq, hs1f, hfd]
          rfl
        · rw [if_neg hj, update_find?_ne _ _ _ _ hj, hs1f]
      refine ⟨?_, ?_, ?_, ?_, ?_⟩
      · rw [hstore]
        exact Get_wf _ _ (update_wf _ _ _ hs1wf)
      · intro id c hc2
        rw [hD id] at hc2
        by_cases hj : id = mc.id
        · rw [if_pos hj] at hc2
          injection hc2 with hc2
          rw [← hc2, hclid, hj]
        · rw [if_neg hj] at hc2
          exact hwf.idCoherent id c hc2
      · intro id c hc2
        rw [hD id] at hc2
        rw [hcnt]
        by_cases hj : id = mc.id
        · rw [if_pos hj] at hc2
          rw [hj]
          exact hwf.storeIdsLe mc.id mc hfd
        · rw [if_neg hj] at hc2
          exact hwf.storeIdsLe id c hc2
      · intro p' hp' n hn id hid
        rw [hroot] at hp'
        rw [hcnt]
        exact hwf.treeIdsLe p' hp' n hn id hid
      · intro p' hp' n hn id hid c hc2
        rw [hroot] at hp'
        rw [hD id] at hc2
        by_cases hj : id = mc.id
        · rw [if_pos hj] at hc2
          injection hc2 with hc2
          subst hj
          have := hwf.lenOK p' hp' n hn mc.id hid mc hfd
          rw [← hc2, hcllen]
          exact this
        · rw [if_neg hj] at hc2
          exact hwf.lenOK p' hp' n hn id hid c hc2

theorem splitSpace_ne_nil (l : List Char) : splitSpace l ≠ [] := by
  induction l with
  | nil => simp [splitSpace]
  | cons c rest ih =>
    unfold splitSpace
    cases h : splitSpace rest with
    | nil => simp
    | cons t ts =>
      by_cases hc : c = ' ' <;> simp [hc]

theorem getContentAsTokens_len (config : Config) (content : String) :
    1 ≤ (getContentAsTokens config content).length := by
  unfold getContentAsTokens
  dsimp only
  rw [List.length_map]
  cases h : splitSpace (config.ExtraDelimiters.foldl
      (fun s extraDelimiter => goReplaceAll s extraDelimiter.data [' '])
      (trimSpace content.data)) with
  | nil => exact absurd h (splitSpace_ne_nil _)
  | cons t ts => simp

theorem addSeqLoop_error (config : Config) (clusterID tokenCount : Nat) :
    ∀ (tokens : List String) (depth : Nat) (cur : Node) (store : LogClusterCache)
      (e : DrainErr),
      addSeqLoop config clusterID tokenCount tokens depth cur store = .error e →
      e = .nilNode := by
  intro tokens
  induction tokens with
  | nil =>
    intro depth cur store e h
    exact Except.noConfusion h
  | cons t rest ih =>
    intro depth cur store e h
    unfold addSeqLoop at h
    by_cases hl : depth ≥ config.maxNodeDepth ∨ depth ≥ tokenCount
    · rw [if_pos hl] at h
      exact Except.noConfusion h
    · rw [if_neg hl] at h
      cases hs : addSeqStep config cur t with
      | none =>
        rw [hs] at h
        dsimp only at h
        unfold nilDescend at h
        cases rest with
        | nil => exact Except.noConfusion h
        | cons r rs =>
          injection h with h
          exact h.symm
      | some kc =>
        rw [hs] at h
        dsimp only at h
        cases hrec : addSeqLoop config clusterID tokenCount rest (depth + 1) kc.2 store with
        | error e2 =>
          rw [hrec] at h
          injection h with h
          rw [← h]
          exact ih (depth + 1) kc.2 store e2 hrec
        | ok res' =>
          obtain ⟨child', store'⟩ := res'
          rw [hrec] at h
          exact Except.noConfusion h

theorem addSeq_error (config : Config) (store : LogClusterCache) (rootNode : Node)
    (cluster : LogCluster) (e : DrainErr)
    (h : addSeqToPrefixTree config store rootNode cluster = .error e) : e = .nilNode := by
  unfold addSeqToPrefixTree at h
  dsimp only at h
  by_cases h0 : cluster.logTemplateTokens.length = 0
  · rw [if_pos h0] at h
    exact Except.noConfusion h
  · rw [if_neg h0] at h
    cases hfl : rootNode.lookupChild (itoa cluster.logTemplateTokens.length) with
    | some fl =>
      rw [hfl] at h
      dsimp only at h
      cases hloop : addSeqLoop config cluster.id cluster.logTemplateTokens.length
          cluster.logTemplateTokens 1 fl store with
      | error e2 =>
        rw [hloop] at h
        injection h with h
        rw [← h]
        exact addSeqLoop_error config cluster.id cluster.logTemplateTokens.length
          cluster.logTemplateTokens 1 fl store e2 hloop
      | ok res' =>
        obtain ⟨first', store'⟩ := res'
        rw [hloop] at h
        exact Except.noConfusion h
    | none =>
      rw [hfl] at h
      dsimp only at h
      cases hloop : addSeqLoop config cluster.id cluster.logTemplateTokens.length
          cluster.logTemplateTokens 1 createNode store with
      | error e2 =>
        rw [hloop] at h
        injection h with h
        rw [← h]
        exact addSeqLoop_error config cluster.id cluster.logTemplateTokens.length
          cluster.logTemplateTokens 1 createNode store e2 hloop
      | ok res' =>
        obtain ⟨first', store'⟩ := res'
        rw [hloop] at h
        exact Except.noConfusion h

theorem Log_no_mismatch (d : Drain) (content : String) (hwf : DrainWF d) :
    Log d content ≠ .error .lenMismatch := by
  intro hcontra
  unfold Log at hcontra
  dsimp only at hcontra
  have hne : (getContentAsTokens d.config content).length ≠ 0 := by
    have := getContentAsTokens_len d.config content
    omega
  have hlen : ∀ p ∈ d.rootNode.keyToChildNode,
      p.1 = itoa (getContentAsTokens d.config content).length →
      ∀ n, Reachable p.2 n → ∀ id ∈ n.clusterIDs, ∀ cl,
        d.idToCluster.find? id = some cl →
        cl.logTemplateTokens.length = (getContentAsTokens d.config content).length := by
    intro p hp hp1 n hn id hid cl hcl
    apply itoa_inj
    rw [hwf.lenOK p hp n hn id hid cl hcl, hp1]
  rcases treeSearch_no_mismatch d.config d.idToCluster d.rootNode
      (getContentAsTokens d.config content) d.config.SimTh false hne hlen with ⟨rs, hts⟩
  rw [hts] at hcontra
  obtain ⟨mcOpt, store1⟩ := rs
  cases mcOpt with
  | none =>
    dsimp only at hcontra
    cases hadd : addSeqToPrefixTree d.config
        (store1.Set (d.clustersCounter + 1)
          { logTemplateTokens := getContentAsTokens d.config content
            id := d.clustersCounter + 1, size := 1 })
        d.rootNode
        { logTemplateTokens := getContentAsTokens d.config content
          id := d.clustersCounter + 1, size := 1 } with
    | error e =>
      rw [hadd] at hcontra
      injection hcontra with hcontra
      have hnil := addSeq_error _ _ _ _ _ hadd
      rw [hcontra] at hnil
      exact DrainErr.noConfusion hnil
    | ok res =>
      obtain ⟨root', store3⟩ := res
      rw [hadd] at hcontra
      exact Except.noConfusion hcontra
  | some mc =>
    dsimp only at hcontra
    have hmcl : mc.logTemplateTokens.length =
        (getContentAsTokens d.config content).length := by
      rcases treeSearch_result _ _ _ _ _ _ _ hts with
        h1 | ⟨p, hp, hp1, node, hnode, id0, hid0, cl0, hfind0, hr⟩
      · dsimp only at h1
        exact Option.noConfusion h1
      · dsimp only at hr
        injection hr with hr
        subst hr
        exact hlen p hp hp1 node hnode id0 hid0 mc hfind0
    rcases createTemplate_ok_of_len d.config (getContentAsTokens d.config content)
        mc.logTemplateTokens (by omega) with ⟨newT, hct⟩
    rw [hct] at hcontra
    dsimp only at hcontra
    exact Except.noConfusion hcontra

theorem runTrace_config : ∀ (lines : List String) (d d' : Drain),
    runTrace d lines = .ok d' → d'.config = d.config := by
  intro lines
  induction lines with
  | nil =>
    intro d d' h
    unfold runTrace at h
    injection h with h
    subst h
    rfl
  | cons line rest ih =>
    intro d d' h
    unfold runTrace at h
    cases hl : Log d line with
    | error e => rw [hl] at h; exact Except.noConfusion h
    | ok dc =>
      obtain ⟨d1, c1⟩ := dc
      rw [hl] at h
      dsimp only at h
      rw [ih d1 d' h]
      exact (Log_spec d line d1 c1 hl).1

theorem runTrace_WF : ∀ (lines : List String) (d d' : Drain),
    runTrace d lines = .ok d' → DrainWF d → DrainWF d' := by
  intro lines
  induction lines with
  | nil =>
    intro d d' h hwf
    unfold runTrace at h
    injection h with h
    subst h
    exact hwf
  | cons line rest ih =>
    intro d d' h hwf
    unfold runTrace at h
    cases hl : Log d line with
    | error e => rw [hl] at h; exact Except.noConfusion h
    | ok dc =>
      obtain ⟨d1, c1⟩ := dc
      rw [hl] at h
      dsimp only at h
      exact ih d1 d' h (Log_WF d line d1 c1 hl hwf)

theorem runTrace_TreeBounded : ∀ (lines : List String) (d d' : Drain),
    runTrace d lines = .ok d' → 1 ≤ d.config.MaxChildren → TreeBounded d →
    TreeBounded d' := by
  intro lines
  induction lines with
  | nil =>
    intro d d' h hmc hb
    unfold runTrace at h
    injection h with h
    subst h
    exact hb
  | cons line rest ih =>
    intro d d' h hmc hb
    unfold runTrace at h
    cases hl : Log d line with
    | error e => rw [hl] at h; exact Except.noConfusion h
    | ok dc =>
      obtain ⟨d1, c1⟩ := dc
      rw [hl] at h
      dsimp only at h
      have hcfg := (Log_spec d line d1 c1 hl).1
      exact ih d1 d' h (by rw [hcfg]; exact hmc) (Log_TreeBounded d line d1 c1 hl hmc hb)

theorem runTrace_no_mismatch : ∀ (lines : List String) (d : Drain), DrainWF d →
    runTrace d lines ≠ .error .lenMismatch := by
  intro lines
  induction lines with
  | nil =>
    intro d hwf h
    exact Except.noConfusion h
  | cons line rest ih =>
    intro d hwf h
    unfold runTrace at h
    cases hl : Log d line with
    | error e =>
      rw [hl] at h
      injection h with h
      exact Log_no_mismatch d line hwf (h ▸ hl)
    | ok dc =>
      obtain ⟨d1, c1⟩ := dc
      rw [hl] at h
      dsimp only at h
      exact ih d1 (Log_WF d line d1 c1 hl hwf) h

theorem fastMatchAux_error (config : Config) (tokens : List String) (ip : Bool) :
    ∀ (ids : List Nat) (store : LogClusterCache) (maxSim : SimScore) (maxPC : Int)
      (maxCl : Option LogCluster) (e : DrainErr),
      fastMatchAux config tokens ip ids store maxSim maxPC maxCl = .error e →
      e = .lenMismatch := by
  intro ids
  induction ids with
  | nil =>
    intro store maxSim maxPC maxCl e h
    exact Except.noConfusion h
  | cons i rest ih =>
    intro store maxSim maxPC maxCl e h
    unfold fastMatchAux at h
    cases hg : LogClusterCache.Get store i with
    | mk rc s' =>
      cases rc with
      | none =>
        rw [hg] at h
        dsimp only at h
        exact ih s' maxSim maxPC maxCl e h
      | some cluster =>
        rw [hg] at h
        dsimp only at h
        cases hd : getSeqDistance config cluster.logTemplateTokens tokens ip with
        | error e2 =>
          rw [hd] at h
          injection h with h
          subst h
          unfold getSeqDistance at hd
          by_cases hl : cluster.logTemplateTokens.length ≠ tokens.length
          · rw [if_pos hl] at hd
            injection hd with hd
            exact hd.symm
          · rw [if_neg hl] at hd
            exact Except.noConfusion hd
        | ok sp =>
          obtain ⟨curSim, paramCount⟩ := sp
          rw [hd] at h
          dsimp only at h
          by_cases hcond : curSim.gt maxSim = true ∨
              (curSim.feq maxSim = true ∧ (paramCount : Int) > maxPC)
          · rw [if_pos hcond] at h
            exact ih s' curSim paramCount (some cluster) e h
          · rw [if_neg hcond] at h
            exact ih s' maxSim maxPC maxCl e h

theorem fastMatch_error (config : Config) (store : LogClusterCache)
    (clusterIDs : List Nat) (tokens : List String) (simTh : SimScore) (ip : Bool)
    (e : DrainErr) (h : fastMatch config store clusterIDs tokens simTh ip = .error e) :
    e = .lenMismatch := by
  unfold fastMatch at h
  cases hfa : fastMatchAux config tokens ip clusterIDs store
      { num := -1, den := 1 } (-1) none with
  | error e2 =>
    rw [hfa] at h
    injection h with h
    subst h
    exact fastMatchAux_error config tokens ip clusterIDs store _ _ _ e2 hfa
  | ok r =>
    obtain ⟨maxCluster, maxSim, store'⟩ := r
    rw [hfa] at h
    exact Except.noConfusion h

theorem Bounded_reachable_length (m : Nat) (p : String) :
    ∀ (x n : Node), Reachable x n → Bounded m p x →
      n.keyToChildNode.length ≤ m := by
  intro x n hr
  induction hr with
  | refl y => exact fun hb => Bounded_length m p y hb
  | step q hq hrec ih => exact fun hb => ih (Bounded_children m p _ hb q hq)

theorem finalCounter_ge : ∀ (lines : List String) (d : Drain),
    d.clustersCounter ≤ finalCounter d lines := by
  intro lines
  induction lines with
  | nil => intro d; exact Nat.le_refl _
  | cons line rest ih =>
    intro d
    unfold finalCounter
    cases hl : Log d line with
    | error e => exact Nat.le_refl _
    | ok dc =>
      obtain ⟨d1, c1⟩ := dc
      dsimp only
      have h1 := ih d1
      rcases Log_counter d line d1 c1 hl with ⟨hcnt, _⟩ | ⟨hcnt, _⟩ <;> omega

theorem createdIds_range : ∀ (lines : List String) (d : Drain),
    createdIds d lines = List.range' (d.clustersCounter + 1)
      (finalCounter d lines - d.clustersCounter) := by
  intro lines
  induction lines with
  | nil =>
    intro d
    unfold createdIds finalCounter
    simp
  | cons line rest ih =>
    intro d
    unfold createdIds finalCounter
    cases hl : Log d line with
    | error e => simp
    | ok dc =>
      obtain ⟨d1, c1⟩ := dc
      dsimp only
      rcases Log_counter d line d1 c1 hl with ⟨hcnt, _⟩ | ⟨hcnt, hid⟩
      · rw [if_neg (by omega), ih d1, hcnt]
        simp
      · rw [if_pos (by omega), ih d1]
        have hge := finalCounter_ge rest d1
        rw [hcnt] at hge ⊢
        have hsplit : finalCounter d1 rest - d.clustersCounter =
            (finalCounter d1 rest - (d.clustersCounter + 1)) + 1 := by omega
        rw [hsplit, List.range'_succ]
        rw [hid, hcnt]
        simp

/-- C1: the specification claims that during leaf candidate scoring
(`fastMatch`) each candidate id is looked up without touching the store, so
the LRU recency order is unchanged.  The code calls the recency-touching
`LogClusterCache.Get` (`simplelru.LRU.Get`) on each candidate — contradicting
the source's own comment about bypassing the eviction algorithm — so scoring
the single stale-free candidate 1 against a two-entry store moves entry 1
from least recently used to most recently used. -/
theorem C1_fastMatch_touches_recency :
    (fastMatch DefaultConfig twoEntryStore [1] ["b"]
        { num := 2, den := 5 } false).map (fun rs => rs.2.entries.map Prod.fst) =
      .ok [2, 1] ∧
    twoEntryStore.entries.map Prod.fst = [1, 2] ∧
    ([2, 1] : List Nat) ≠ [1, 2] :=
  ⟨rfl, rfl, by decide⟩

/-- C2 counterexample: the claim says the token classifier returns true iff a
token contains a decimal digit, and false on tokens whose only numeric code
points are Roman numerals or fraction characters.  `hasNumbers` uses Go
`unicode.IsNumber` (Unicode category N over all planes), so the fraction ½
(U+00BD, category No), the Roman numeral Ⅳ (U+2163, category Nl) and the
supplementary-plane Aegean number 𐄇 (U+10107, category No), none of which is
a decimal digit, are all classified true. -/
theorem C2_counterexample :
    hasNumbers "½" = true ∧ specHasDigit "½" = false ∧
    hasNumbers "Ⅳ" = true ∧ specHasDigit "Ⅳ" = false ∧
    hasNumbers "𐄇" = true ∧ specHasDigit "𐄇" = false ∧
    isDecimalDigit '½' = false ∧ unicodeIsNumber '½' = true ∧
    isDecimalDigit '𐄇' = false ∧ unicodeIsNumber '𐄇' = true := by
  decide

set_option maxRecDepth 8192 in
/-- C2 (amended): the token classifier returns true iff at least one code
point of the token is in Unicode category N (Number) — the behaviour of Go
`unicode.IsNumber` — a strict superset of the decimal digits: every token
containing a decimal digit is classified true, but so are tokens containing
other numeric code points such as Roman numerals or fractions. -/
theorem C2_hasNumbers_category_number :
    (∀ s : String, hasNumbers s = true ↔ ∃ c ∈ s.data, unicodeIsNumber c = true) ∧
    (∀ c : Char, isDecimalDigit c = true → unicodeIsNumber c = true) ∧
    (∀ s : String, specHasDigit s = true → hasNumbers s = true) := by
  have hdig : ∀ c : Char, isDecimalDigit c = true → unicodeIsNumber c = true := by
    intro c hc
    simp only [isDecimalDigit, List.any_eq_true] at hc
    rcases hc with ⟨r, hr, hb⟩
    have hcover : ∀ r ∈ decimalDigitRanges, ∃ q ∈ unicodeNumberRanges,
        q.1 ≤ r.1 ∧ r.2 ≤ q.2 := by decide
    rcases hcover r hr with ⟨q, hq, hq1, hq2⟩
    simp only [unicodeIsNumber, List.any_eq_true]
    refine ⟨q, hq, ?_⟩
    simp only [Bool.and_eq_true, decide_eq_true_eq] at hb ⊢
    omega
  refine ⟨fun s => by simp [hasNumbers, List.any_eq_true], hdig, ?_⟩
  intro s hs
  simp only [specHasDigit, List.any_eq_true] at hs
  rcases hs with ⟨c, hc, hd⟩
  simp only [hasNumbers, List.any_eq_true]
  exact ⟨c, hc, hdig c hd⟩

/-- C2 witness for the amended theorem's implications: the token `"a5"`
contains the ASCII decimal digit 5 and the supplementary-plane mathematical
bold digit zero 𝟎 (U+1D7CE, category Nd) is a decimal digit too, so both
classifiers return true on each. -/
theorem C2_witness :
    isDecimalDigit '5' = true ∧ unicodeIsNumber '5' = true ∧
    isDecimalDigit '𝟎' = true ∧ unicodeIsNumber '𝟎' = true ∧
    specHasDigit "a5" = true ∧ hasNumbers "a5" = true ∧
    specHasDigit "𝟎" = true ∧ hasNumbers "𝟎" = true :=
  ⟨by decide, C2_hasNumbers_category_number.2.1 '5' (by decide),
    by decide, C2_hasNumbers_category_number.2.1 '𝟎' (by decide),
    by decide, C2_hasNumbers_category_number.2.2 "a5" (by decide),
    by decide, C2_hasNumbers_category_number.2.2 "𝟎" (by decide)⟩

/-- C3 counterexample: the root is exempt from the fan-out bound — its child
map gains one entry per distinct token count with no `MaxChildren` check —
and with `MaxChildren = 0` even a non-root node exceeds the bound, because
the digit-token branch creates the wildcard child unconditionally.  With
`MaxChildren = 1`, training one 1-token and one 2-token line leaves the root
with 2 children; with `MaxChildren = 0`, training `"x1 y"` leaves the bucket
node with 1 child. -/
theorem C3_counterexample :
    rootFanOut { DefaultConfig with MaxChildren := 1 } ["a", "b b"] = some (.ok 2) ∧
    ({ DefaultConfig with MaxChildren := 1 } : Config).MaxChildren < 2 ∧
    bucketFanOut { DefaultConfig with MaxChildren := 0 } ["x1 y"] (itoa 2) =
      some (.ok (some 1)) ∧
    ({ DefaultConfig with MaxChildren := 0 } : Config).MaxChildren < 1 :=
  ⟨rfl, by decide, rfl, by decide⟩

/-- C3 (amended): provided `MaxChildren ≥ 1`, after any sequence of train
calls every tree node strictly below the root — the root's child map, keyed
by token count, is unbounded — contains at most `MaxChildren` entries. -/
theorem C3_child_bound (config : Config) (d0 d : Drain) (lines : List String)
    (hnew : New config = some d0) (hmc : 1 ≤ config.MaxChildren)
    (hrun : runTrace d0 lines = .ok d) :
    ∀ p ∈ d.rootNode.keyToChildNode, ∀ n, Reachable p.2 n →
      n.keyToChildNode.length ≤ config.MaxChildren := by
  have hcfg0 := (New_spec config d0 hnew).1
  have hb0 := TreeBounded_New config d0 hnew
  have hmc0 : 1 ≤ d0.config.MaxChildren := by rw [hcfg0]; exact hmc
  have hb := runTrace_TreeBounded lines d0 d hrun hmc0 hb0
  have hcfg := runTrace_config lines d0 d hrun
  intro p hp n hn
  have hbp := hb p hp
  have hmceq : d.config.MaxChildren = config.MaxChildren := by
    rw [hcfg, hcfg0]
  rw [← hmceq]
  exact Bounded_reachable_length _ _ _ _ hn hbp

/-- Witness for the amended C3 theorem at the default configuration. -/
theorem C3_witness :
    New DefaultConfig = some drainD0 ∧ 1 ≤ DefaultConfig.MaxChildren ∧
    runTrace drainD0 ["connected to 10.0.0.1"] =
      .ok (runTraceD drainD0 ["connected to 10.0.0.1"]) ∧
    ∀ p ∈ (runTraceD drainD0 ["connected to 10.0.0.1"]).rootNode.keyToChildNode,
      ∀ n, Reachable p.2 n → n.keyToChildNode.length ≤ DefaultConfig.MaxChildren :=
  ⟨rfl, by decide, rfl,
    C3_child_bound DefaultConfig drainD0 _ ["connected to 10.0.0.1"] rfl (by decide) rfl⟩

/-- C4 (spec-modelled: the repository's `Match` method is not under src/, so
`Match` is defined from spec 4.8): a successful `Match` performs tokenization
and tree search with `include_params = true` and returns the best cluster or
none, with no state mutation: the tree, the allocation counter, the
configuration, the capacity, and every stored cluster (looked up pointwise,
so no template merge and no size change) are unchanged; the only possible
effect is the LRU recency reordering of the internal match logic. -/
theorem C4_match_no_mutation (d : Drain) (content : String) (d' : Drain)
    (r : Option LogCluster) (h : Match d content = .ok (d', r)) :
    d'.rootNode = d.rootNode ∧ d'.clustersCounter = d.clustersCounter ∧
    d'.config = d.config ∧ d'.idToCluster.maxSize = d.idToCluster.maxSize ∧
    (∀ id, d'.idToCluster.find? id = d.idToCluster.find? id) ∧
    ∃ store', treeSearch d.config d.idToCluster d.rootNode
      (getContentAsTokens d.config content) d.config.SimTh true = .ok (r, store') := by
  unfold Match at h
  dsimp only at h
  cases hts : treeSearch d.config d.idToCluster d.rootNode
      (getContentAsTokens d.config content) d.config.SimTh true with
  | error e => rw [hts] at h; exact Except.noConfusion h
  | ok rs =>
    obtain ⟨r0, store'⟩ := rs
    rw [hts] at h
    dsimp only at h
    injection h with h
    injection h with hd hr
    subst hd
    subst hr
    rcases treeSearch_store _ _ _ _ _ _ _ hts with ⟨h1, h2, _⟩
    exact ⟨rfl, rfl, rfl, h2, h1, store', rfl⟩

/-- Witness for C4 at a concrete state and line. -/
theorem C4_witness :
    Match drainD0 "a" = .ok (drainD0, none) ∧
    (∀ id, drainD0.idToCluster.find? id = drainD0.idToCluster.find? id) :=
  ⟨rfl, (C4_match_no_mutation drainD0 "a" drainD0 none rfl).2.2.2.2.1⟩

/-- C5: the length-mismatch abort (the Go panic in `getSeqDistance` and
`createTemplate`) is unreachable in well-formed runs: no training trace from
`New` ever stops with `DrainErr.lenMismatch`, because descent under the
depth-1 token-count key guarantees every candidate cluster's template length
equals the input token count, and merging preserves template length.  In
this embedding every unequal-length invocation of the similarity or merge
function yields exactly this error and propagates to the trace result, so
the statement covers every invocation a run performs. -/
theorem C5_no_len_mismatch (config : Config) (d0 : Drain) (lines : List String)
    (hnew : New config = some d0) :
    runTrace d0 lines ≠ .error .lenMismatch :=
  runTrace_no_mismatch lines d0 (DrainWF_New config d0 hnew)

/-- Witness for C5 on the S1 trace. -/
theorem C5_witness :
    New DefaultConfig = some drainD0 ∧
    runTrace drainD0 s1lines ≠ .error .lenMismatch :=
  ⟨rfl, C5_no_len_mismatch DefaultConfig drainD0 s1lines rfl⟩

/-- C6: training the seven S1 lines under the default configuration yields
exactly three clusters, in id order: id 1 size 3 "connected to <*>", id 2
size 2 "Hex number <*>", id 3 size 2 "user <*> logged in". -/
theorem C6_s1_scenario :
    trainSummaries DefaultConfig s1lines =
      some (.ok [(1, 3, "connected to <*>"), (2, 2, "Hex number <*>"),
        (3, 2, "user <*> logged in")]) :=
  rfl

/-- C7: stale ids left behind by LRU eviction are harmless.  (1) Candidate
scoring skips an id the store lookup misses: dropping it from the candidate
list changes nothing, including the threaded store.  (2) The leaf write on
the insertion path prunes exactly the dead ids before appending.  (3) In the
concrete S7-style run with `MaxClusters = 2`: after three distinct-shape
lines the evicted id 1 is still referenced by the leaf under bucket "2"
child "a"; the fourth train call, whose path crosses that leaf, completes
without crashing, leaves cluster 1 evicted (not resurrected), and prunes the
stale id from the leaf, which afterwards holds only the new id 4. -/
theorem C7_stale_skipped_and_pruned :
    (∀ (config : Config) (tokens : List String) (ip : Bool) (ids : List Nat)
      (store : LogClusterCache) (maxSim : SimScore) (maxPC : Int)
      (maxCl : Option LogCluster) (id : Nat), store.find? id = none →
      fastMatchAux config tokens ip (id :: ids) store maxSim maxPC maxCl =
        fastMatchAux config tokens ip ids store maxSim maxPC maxCl) ∧
    (∀ (store : LogClusterCache) (ids : List Nat),
      (pruneClusterIDs store ids).1 = ids.filter (fun i => (store.find? i).isSome)) ∧
    traceLeafIDs cfgTwoClusters (c7lines.take 3) (itoa 2) "a" = some (.ok (some [1])) ∧
    traceFindCluster cfgTwoClusters (c7lines.take 3) 1 = some (.ok none) ∧
    traceStoreKeys cfgTwoClusters c7lines = some (.ok [3, 4]) ∧
    traceFindCluster cfgTwoClusters c7lines 1 = some (.ok none) ∧
    traceLeafIDs cfgTwoClusters c7lines (itoa 2) "a" = some (.ok (some [4])) := by
  refine ⟨?_, ?_, rfl, rfl, rfl, rfl, rfl⟩
  · intro config tokens ip ids store maxSim maxPC maxCl id hmiss
    have hent : store.entries.find? (fun e => decide (e.1 = id)) = none := by
      unfold LogClusterCache.find? at hmiss
      cases hf : store.entries.find? (fun e => decide (e.1 = id)) with
      | none => rfl
      | some e => rw [hf] at hmiss; exact Option.noConfusion hmiss
    have hgeq : LogClusterCache.Get store id = (none, store) := by
      unfold LogClusterCache.Get
      rw [hent]
    rw [fastMatchAux.eq_2, hgeq]
  · intro store ids
    exact pruneClusterIDs_fst ids store

/-- Witness for the skip conjunct of C7 at a concrete stale id. -/
theorem C7_witness :
    (createLogClusterCache 0).find? 5 = none ∧
    fastMatchAux DefaultConfig ["a"] false [5] (createLogClusterCache 0)
        { num := -1, den := 1 } (-1) none =
      fastMatchAux DefaultConfig ["a"] false [] (createLogClusterCache 0)
        { num := -1, den := 1 } (-1) none :=
  ⟨rfl, C7_stale_skipped_and_pruned.1 DefaultConfig ["a"] false []
    (createLogClusterCache 0) { num := -1, den := 1 } (-1) none 5 rfl⟩

/-- C8: generalization is monotone.  In a well-formed state, once position
`i` of a stored cluster's template holds the wildcard marker, it still holds
the wildcard marker after any further successful `Log` call: a merge rewrites
the template through `createTemplate`, which keeps every wildcard of the old
template, and all other clusters are untouched. -/
theorem C8_wildcard_monotone (d : Drain) (content : String) (d' : Drain) (cl : LogCluster)
    (id i : Nat) (cluster : LogCluster) (hwf : DrainWF d)
    (h : Log d content = .ok (d', cl))
    (hfind : d.idToCluster.find? id = some cluster)
    (hwild : cluster.logTemplateTokens.get? i = some d.config.ParamString) :
    ∀ cluster2, d'.idToCluster.find? id = some cluster2 →
      cluster2.logTemplateTokens.get? i = some d.config.ParamString := by
  intro cluster2 hfind2
  rcases Log_spec d content d' cl h with ⟨hcfg, hbr⟩
  rcases hbr with ⟨store1, res, hts, hadd, hroot, hstore, hcnt, hcl⟩ |
    ⟨store1, mc, newT, hts, hct, hcl, hroot, hcnt, hstore⟩
  · rcases treeSearch_store _ _ _ _ _ _ _ hts with ⟨hts1, _, htswf⟩
    rcases addSeq_store _ _ _ _ _ hadd with ⟨hadd1, _, _⟩
    rw [hstore, hadd1] at hfind2
    rcases Set_find?_some store1 _ _ id cluster2 (htswf hwf.wf) hfind2 with
      ⟨hid, _⟩ | hrest
    · have hle := hwf.storeIdsLe id cluster hfind
      omega
    · rw [hts1, hfind] at hrest
      injection hrest with hrest
      rw [← hrest]
      exact hwild
  · have hmc : d.idToCluster.find? mc.id = some mc := by
      rcases treeSearch_result _ _ _ _ _ _ _ hts with hnone | hsome
      · exact absurd hnone (Option.noConfusion)
      · rcases hsome with ⟨p, _, _, node, _, id0, _, cl0, hf0, heq⟩
        injection heq with heq
        have hco := hwf.idCoherent id0 cl0 hf0
        rw [← heq] at hf0 hco
        rw [hco]
        exact hf0
    rcases treeSearch_store _ _ _ _ _ _ _ hts with ⟨hts1, _, _⟩
    rw [hstore, Get_find?] at hfind2
    by_cases hid : id = mc.id
    · subst hid
      rw [update_find?_eq, hts1, hmc] at hfind2
      rw [Option.map_some'] at hfind2
      injection hfind2 with hfind2
      have hcm : cluster = mc := by
        rw [hmc] at hfind
        injection hfind with hfind
        exact hfind.symm
      rw [← hfind2, hcl]
      exact createTemplate_param d.config _ _ _ i hct (hcm ▸ hwild)
    · rw [update_find?_ne _ _ _ _ hid, hts1, hfind] at hfind2
      injection hfind2 with hfind2
      rw [← hfind2]
      exact hwild

/-- Witness for C8: after the first two S1 lines, cluster 1's template is
"connected to <*>" with the wildcard at position 2; merging a third
"connected to" line keeps the wildcard there. -/
theorem C8_witness :
    ({ logTemplateTokens := ["connected", "to", "<*>"], id := 1, size := 3 } :
        LogCluster).logTemplateTokens.get? 2 =
      some (runTraceD drainD0 (s1lines.take 2)).config.ParamString :=
  C8_wildcard_monotone (runTraceD drainD0 (s1lines.take 2)) "connected to 10.0.0.3"
    (LogD (runTraceD drainD0 (s1lines.take 2)) "connected to 10.0.0.3")
    (LogRet (runTraceD drainD0 (s1lines.take 2)) "connected to 10.0.0.3")
    1 2 { logTemplateTokens := ["connected", "to", "<*>"], id := 1, size := 2 }
    (runTrace_WF (s1lines.take 2) drainD0 (runTraceD drainD0 (s1lines.take 2)) rfl
      (DrainWF_New DefaultConfig drainD0 rfl))
    rfl rfl rfl
    { logTemplateTokens := ["connected", "to", "<*>"], id := 1, size := 3 } rfl

/-- C9: along every training trace from `New`, the ids of the clusters a
miner creates form exactly `List.range' 1 k` for some `k`: strictly
increasing in creation order, starting at 1 for the first cluster, and never
reused. -/
theorem C9_ids_monotone (config : Config) (d0 : Drain) (lines : List String)
    (hnew : New config = some d0) :
    createdIds d0 lines = List.range' 1 (finalCounter d0 lines) ∧
    List.Pairwise (· < ·) (createdIds d0 lines) ∧
    (createdIds d0 lines).Nodup ∧
    ∀ i ∈ createdIds d0 lines, 1 ≤ i := by
  have hr := createdIds_range lines d0
  rcases New_spec config d0 hnew with ⟨-, -, -, hn⟩
  rw [hn] at hr
  norm_num at hr
  refine ⟨hr, hr ▸ List.pairwise_lt_range' 1 _, hr ▸ List.nodup_range' 1 _, ?_⟩
  intro i hi
  rw [hr, List.mem_range'_1] at hi
  omega

/-- Witness for C9 on the S1 trace: the created ids are exactly [1, 2, 3]. -/
theorem C9_witness :
    New DefaultConfig = some drainD0 ∧
    createdIds drainD0 s1lines = [1, 2, 3] ∧
    List.Pairwise (· < ·) (createdIds drainD0 s1lines) :=
  ⟨rfl, rfl, (C9_ids_monotone DefaultConfig drainD0 s1lines rfl).2.1⟩

/-- C10: tokenization never returns an empty list, for any input string
including the empty and all-whitespace strings (Go `strings.Split` on a
non-empty separator always yields at least one field).  Hence the
token-count-zero branch of tree search is unreachable through train — on
tokenized input `treeSearch` can never stop with the empty-leaf abort, which
only that branch raises — and every similarity invocation against tokenized
input that succeeds divides by the positive token count, never by zero. -/
theorem C10_tokens_nonempty (config : Config) (content : String) :
    1 ≤ (getContentAsTokens config content).length ∧
    ((getContentAsTokens config content).length = 0) = False ∧
    (∀ (store : LogClusterCache) (root : Node) (simTh : SimScore) (ip : Bool),
      treeSearch config store root (getContentAsTokens config content) simTh ip ≠
        .error .emptyLeaf) ∧
    (∀ (seq1 : List String) (ip : Bool) (r : SimScore × Nat),
      getSeqDistance config seq1 (getContentAsTokens config content) ip = .ok r →
      0 < r.1.den ∧ r.1.den = seq1.length) := by
  have h1 := getContentAsTokens_len config content
  refine ⟨h1, eq_false (by omega), ?_, ?_⟩
  · intro store root simTh ip hcontra
    unfold treeSearch at hcontra
    dsimp only at hcontra
    cases hlk : root.lookupChild (itoa (getContentAsTokens config content).length) with
    | none => rw [hlk] at hcontra; exact Except.noConfusion hcontra
    | some curNode =>
      rw [hlk] at hcontra
      dsimp only at hcontra
      rw [if_neg (by omega)] at hcontra
      cases htl : treeSearchLoop config (getContentAsTokens config content).length
          (getContentAsTokens config content) 1 curNode with
      | none => rw [htl] at hcontra; exact Except.noConfusion hcontra
      | some leaf =>
        rw [htl] at hcontra
        have := fastMatch_error config store leaf.clusterIDs
          (getContentAsTokens config content) simTh ip .emptyLeaf hcontra
        exact DrainErr.noConfusion this
  · intro seq1 ip r h
    have hlen := getSeqDistance_len config seq1 _ ip r h
    unfold getSeqDistance at h
    rw [if_neg (by omega)] at h
    dsimp only at h
    injection h with h
    rw [← h]
    exact ⟨by dsimp only; omega, rfl⟩

/-- Witness for C10 at the empty input string: it tokenizes to the single
empty token, and a similarity call against it divides by one. -/
theorem C10_witness :
    1 ≤ (getContentAsTokens DefaultConfig "").length ∧
    getSeqDistance DefaultConfig [""] (getContentAsTokens DefaultConfig "") false =
      .ok ({ num := 1, den := 1 }, 0) ∧
    0 < (({ num := 1, den := 1 } : SimScore), 0).1.den ∧
    treeSearch DefaultConfig (createLogClusterCache 0) createNode
        (getContentAsTokens DefaultConfig "") DefaultConfig.SimTh false ≠
      .error .emptyLeaf :=
  ⟨(C10_tokens_nonempty DefaultConfig "").1, rfl,
    ((C10_tokens_nonempty DefaultConfig "").2.2.2 [""] false
      ({ num := 1, den := 1 }, 0) rfl).1,
    (C10_tokens_nonempty DefaultConfig "").2.2.1 (createLogClusterCache 0) createNode
      DefaultConfig.SimTh false⟩
